import Mathlib

/-!
Verification development for the pyreactflow export pipeline: the control-flow
graph builder that turns a parsed function body into a node/edge diagram.
The implementation module itself is not part of the available sources (only its
test suite is), so every definition below is modelled from the specification's
data model and algorithm description, and validated against the expectations
recorded in the test suite.
-/

/-- Modelled from the spec: the expression tree produced by the parsing
collaborator — identifier references, literals (string/number/bool), calls
(bare callee name plus ordered arguments), method calls (receiver, bare method
name, arguments), collection literals, binary/comparison operators,
attribute/subscript access, and the inline conditional (ternary) expression. -/
inductive Expr where
  | identE (name : String)
  | strLit (s : String)
  | numLit (s : String)
  | boolLit (b : Bool)
  | callE (callee : String) (args : List Expr)
  | methodCall (recv : Expr) (meth : String) (args : List Expr)
  | listLit (elems : List Expr)
  | binop (op : String) (l r : Expr)
  | attrE (recv : Expr) (name : String)
  | subscriptE (recv idx : Expr)
  | ternary (body test orelse : Expr)
deriving Repr

mutual

/-- Modelled from the spec: `Render(expr) → label string`.  String literals are
canonicalized to single-quote form, collection literals comma-space join their
elements, calls render as `callee(arg1, arg2, ...)`, operators use infix
notation with single spaces, attribute/subscript use dot/bracket form. -/
def render : Expr → String
  | .identE n => n
  | .strLit s => "\x27" ++ s ++ "\x27"
  | .numLit s => s
  | .boolLit b => if b then "True" else "False"
  | .callE f args => f ++ "(" ++ renderList args ++ ")"
  | .methodCall r m args => render r ++ "." ++ m ++ "(" ++ renderList args ++ ")"
  | .listLit es => "[" ++ renderList es ++ "]"
  | .binop op l r => render l ++ " " ++ op ++ " " ++ render r
  | .attrE r n => render r ++ "." ++ n
  | .subscriptE r i => render r ++ "[" ++ render i ++ "]"
  | .ternary b c o => render b ++ " if " ++ render c ++ " else " ++ render o

/-- Comma-space joined rendering of an expression list. -/
def renderList : List Expr → String
  | [] => ""
  | [e] => render e
  | e :: rest => render e ++ ", " ++ renderList rest

end

/-- Modelled from the spec: the classification of a call argument —
`variable` (bare identifier), `string` (string literal), `call` (the argument
is itself a call), `literal` (any other constant). -/
inductive ArgKind where
  | var
  | str
  | call
  | lit
deriving Repr, DecidableEq

/-- The export-payload name of an argument classification. -/
def ArgKind.typeName : ArgKind → String
  | .var => "variable"
  | .str => "string"
  | .call => "call"
  | .lit => "literal"

/-- Modelled from the spec: `Arg` — a classified call argument carrying a
descriptor and its kind. -/
structure Arg where
  name : String
  kind : ArgKind
deriving Repr, DecidableEq

/-- Modelled from the spec: `TaskRef` — a recorded call expression keyed by its
bare callee or method name, with its classified arguments. -/
structure TaskRef where
  name : String
  args : List Arg
deriving Repr, DecidableEq

/-- Modelled from the spec: classify one call argument.  A bare identifier is a
`variable` whose descriptor is the identifier name; a string literal is a
`string` whose descriptor is the literal text; an argument that is itself a
call records the fixed sentinel descriptor without expanding the sub-call; any
other constant is a `literal`. -/
def classifyArg : Expr → Arg
  | .identE n => ⟨n, .var⟩
  | .strLit s => ⟨s, .str⟩
  | .callE _ _ => ⟨"function_call", .call⟩
  | .methodCall _ _ _ => ⟨"function_call", .call⟩
  | e => ⟨render e, .lit⟩

mutual

/-- Modelled from the spec: `CollectTasks(expr)` — depth-first walk of the
expression; every call sub-expression encountered yields one TaskRef keyed by
its bare callee or method name, with each of its own arguments classified by
`classifyArg`; tasks appear in first-visit order. -/
def collectTasks : Expr → List TaskRef
  | .identE _ => []
  | .strLit _ => []
  | .numLit _ => []
  | .boolLit _ => []
  | .callE f args => ⟨f, args.map classifyArg⟩ :: collectTasksList args
  | .methodCall r m args =>
      ⟨m, args.map classifyArg⟩ :: (collectTasks r ++ collectTasksList args)
  | .listLit es => collectTasksList es
  | .binop _ l r => collectTasks l ++ collectTasks r
  | .attrE r _ => collectTasks r
  | .subscriptE r i => collectTasks r ++ collectTasks i
  | .ternary b c o => collectTasks b ++ collectTasks c ++ collectTasks o

/-- Task collection over a list of expressions, left to right. -/
def collectTasksList : List Expr → List TaskRef
  | [] => []
  | e :: rest => collectTasks e ++ collectTasksList rest

end

mutual

/-- The call sub-expressions of an expression, in the first-visit order of the
depth-first walk used by `collectTasks`. -/
def callSubexprs : Expr → List Expr
  | .identE _ => []
  | .strLit _ => []
  | .numLit _ => []
  | .boolLit _ => []
  | .callE f args => .callE f args :: callSubexprsList args
  | .methodCall r m args =>
      .methodCall r m args :: (callSubexprs r ++ callSubexprsList args)
  | .listLit es => callSubexprsList es
  | .binop _ l r => callSubexprs l ++ callSubexprs r
  | .attrE r _ => callSubexprs r
  | .subscriptE r i => callSubexprs r ++ callSubexprs i
  | .ternary b c o => callSubexprs b ++ callSubexprs c ++ callSubexprs o

/-- Call sub-expressions of a list of expressions, left to right. -/
def callSubexprsList : List Expr → List Expr
  | [] => []
  | e :: rest => callSubexprs e ++ callSubexprsList rest

end

/-- The single TaskRef contributed by one call expression: its bare callee or
method name (never a dotted form) together with its classified arguments. -/
def taskOfCall : Expr → TaskRef
  | .callE f args => ⟨f, args.map classifyArg⟩
  | .methodCall _ m args => ⟨m, args.map classifyArg⟩
  | _ => ⟨"", []⟩

/-- Whether an expression is a call or method call. -/
def isCallExpr : Expr → Bool
  | .callE _ _ => true
  | .methodCall _ _ _ => true
  | _ => false

/-- Modelled from the spec: the normalized statement model of one function
body — assignment, bare call, conditional, counted loop, unconditional loop,
return, plus the leading bare-string (docstring) statement that the entry
contract excludes before the sequence reaches the graph builder. -/
inductive Stmt where
  | assignment (targets : List String) (value : Expr)
  | bareCall (call : Expr)
  | conditional (test : Expr) (yesBody noBody : List Stmt)
  | countedLoop (binder : String) (iterable : Expr) (body : List Stmt)
  | unconditionalLoop (body : List Stmt)
  | ret (value : Option Expr)
  | docString (s : String)
deriving Repr

/-- Modelled from the spec: node kinds of the flow graph. -/
inductive NodeKind where
  | start
  | endNode
  | operation
  | condition
  | loop
  | subroutine
deriving Repr, DecidableEq

/-- The rendered label of a statement (loop statements use their header). -/
def stmtLabel : Stmt → String
  | .assignment ts e => String.intercalate ", " ts ++ " = " ++ render e
  | .bareCall c => render c
  | .conditional t _ _ => render t
  | .countedLoop b it _ => "for " ++ b ++ " in " ++ render it
  | .unconditionalLoop _ => "while True"
  | .ret v => "return" ++ (match v with | some e => " " ++ render e | none => "")
  | .docString s => "\x27" ++ s ++ "\x27"

/-- The rendered loop header of a loop statement, `none` for non-loops. -/
def loopHeaderQ : Stmt → Option String
  | .countedLoop b it _ => some ("for " ++ b ++ " in " ++ render it)
  | .unconditionalLoop _ => some "while True"
  | _ => none

/-- Modelled from the spec: bound variables — an assignment contributes its
target names, a counted loop its binder, every other statement none. -/
def stmtVars : Stmt → List String
  | .assignment ts _ => ts
  | .countedLoop b _ _ => [b]
  | _ => []

/-- The tasks attached to a statement's node: the collected calls of the
expression the node's label renders. -/
def stmtTasks : Stmt → List TaskRef
  | .assignment _ e => collectTasks e
  | .bareCall c => collectTasks c
  | .conditional t _ _ => collectTasks t
  | .countedLoop _ it _ => collectTasks it
  | _ => []

/-- Modelled from the spec: node kind selection — assignment → operation,
bare call → subroutine, conditional test → condition, loops → loop. -/
def stmtKind : Stmt → NodeKind
  | .assignment _ _ => .operation
  | .bareCall _ => .subroutine
  | .conditional _ _ _ => .condition
  | .countedLoop _ _ _ => .loop
  | .unconditionalLoop _ => .loop
  | .ret _ => .endNode
  | .docString _ => .operation

/-- A statement that lowers to a single plain node: assignment or bare call. -/
def simpleStmt : Stmt → Bool
  | .assignment _ _ => true
  | .bareCall _ => true
  | _ => false

/-- A leading bare-string statement. -/
def isDocString : Stmt → Bool
  | .docString _ => true
  | _ => false

/-- Modelled from the spec: `FlowNode` — id, kind, label, optional parent
(containment), bound variables, tasks. -/
structure FlowNode where
  id : Nat
  kind : NodeKind
  label : String
  parent : Option Nat
  vars : List String
  tasks : List TaskRef
deriving Repr, DecidableEq

/-- Modelled from the spec: `FlowEdge` — source, target, optional label
(`"Yes"`/`"No"` only out of condition nodes). -/
structure FlowEdge where
  source : Nat
  target : Nat
  label : Option String
deriving Repr, DecidableEq

/-- Modelled from the spec: the exported graph — ordered nodes and edges. -/
structure RFGraph where
  nodes : List FlowNode
  edges : List FlowEdge
deriving Repr, DecidableEq

/-- Builder state: the running graph, the monotone id allocator, and the
lazily materialized end node's id. -/
structure BState where
  nodes : List FlowNode
  edges : List FlowEdge
  nextId : Nat
  endId : Option Nat
deriving Repr, DecidableEq

/-- An attachment point produced by lowering: a source node id plus the label
the next edge out of it must carry (`"Yes"`/`"No"` for an empty branch's
pending edge, otherwise none). -/
def Exit : Type := Nat × Option String

/-- The label of the lazily created end node: `"output:  "` (two spaces)
followed by the rendered return expression, with empty suffix when the return
carries no value. -/
def outLabel (v : Option Expr) : String :=
  "output:  " ++ (match v with | some e => render e | none => "")

/-- Append a fresh node (with the allocator's next id) and connect every
incoming attachment point to it, preserving each pending edge label. -/
def pushNode (s : BState) (k : NodeKind) (lab : String) (par : Option Nat)
    (vs : List String) (ts : List TaskRef) (incoming : List Exit) : BState :=
  { nodes := s.nodes ++ [⟨s.nextId, k, lab, par, vs, ts⟩],
    edges := s.edges ++ incoming.map (fun p => ⟨p.1, s.nextId, p.2⟩),
    nextId := s.nextId + 1,
    endId := s.endId }

/-- Modelled from the spec: lowering a `Return` — create (or reuse, if already
materialized for this build) the single end node and connect the current
attachment points to it. -/
def pushRet (s : BState) (v : Option Expr) (incoming : List Exit) : BState :=
  match s.endId with
  | some j => { s with edges := s.edges ++ incoming.map (fun p => ⟨p.1, j, p.2⟩) }
  | none =>
      { nodes := s.nodes ++ [⟨s.nextId, .endNode, outLabel v, none, [], []⟩],
        edges := s.edges ++ incoming.map (fun p => ⟨p.1, s.nextId, p.2⟩),
        nextId := s.nextId + 1,
        endId := some s.nextId }

/-- Modelled from the spec: the twin-loop merge's duplicate lookup — the node
already present under the surviving loop `l1` whose `(kind, label)` exactly
matches the given node, if any. -/
def mergeDedup (s : BState) (l1 : Nat) (n : FlowNode) : Option FlowNode :=
  s.nodes.find? (fun m =>
    decide (m.parent = some l1 ∧ m.kind = n.kind ∧ m.label = n.label))

/-- The id retargeting of the twin-loop merge: the discarded loop id maps to
the surviving loop id, and a discarded duplicate child maps to the matching
reused child. -/
def mergeRen (s : BState) (l1 l2 i : Nat) : Nat :=
  if i = l2 then l1
  else
    match s.nodes.find? (fun m => decide (m.id = i)) with
    | some m =>
        if m.parent = some l2 then
          match mergeDedup s l1 m with
          | some m2 => m2.id
          | none => i
        else i
    | none => i

/-- Which nodes survive the twin-loop merge: everything except the discarded
loop node and its children that duplicate a `(kind, label)` already present
under the surviving loop. -/
def mergeKeep (s : BState) (l1 l2 : Nat) (n : FlowNode) : Bool :=
  decide (n.id ≠ l2 ∧ (n.parent = some l2 → mergeDedup s l1 n = none))

/-- Re-attachment of a surviving child of the discarded loop to the surviving
loop. -/
def mergeFix (l1 l2 : Nat) (n : FlowNode) : FlowNode :=
  if n.parent = some l2 then { n with parent := some l1 } else n

/-- Modelled from the spec: twin-loop merge surgery.  The second-lowered loop
node `l2` is discarded; its body's nodes are re-attached to the first-lowered
loop node `l1`, deduplicating any body node whose `(kind, label)` exactly
matches one already present under `l1` (the matching existing node is reused);
every edge referencing a discarded node is retargeted accordingly. -/
def mergeLoops (s : BState) (l1 l2 : Nat) : BState :=
  { nodes := (s.nodes.filter (mergeKeep s l1 l2)).map (mergeFix l1 l2),
    edges := s.edges.map
      (fun e => ⟨mergeRen s l1 l2 e.source, mergeRen s l1 l2 e.target, e.label⟩),
    nextId := s.nextId,
    endId := s.endId }

/-- Whether a conditional's branches are each exactly one loop statement with
the same rendered header label — the twin-loop merge precondition. -/
def twinHeaders : List Stmt → List Stmt → Bool
  | [y], [n] =>
      match loopHeaderQ y, loopHeaderQ n with
      | some h1, some h2 => h1 = h2
      | _, _ => false
  | _, _ => false

mutual

/-- Modelled from the spec: lowering of one statement.  `pl` is the nearest
enclosing loop's node id at absolute depth ≤ 1 (none at top level; conditions
never act as containers and never change it).  Assignments and bare calls
append one node; a conditional appends a condition node, lowers each branch
from a labeled attachment point (an empty branch leaves the labeled point
pending for whatever follows), then applies the twin-loop merge when both
branches are sole loop statements with identical headers; a loop at top level
becomes a container whose body is lowered beneath it (its first statement gets
no incoming edge, and the loop node itself is the attachment point for what
follows); a loop already beneath a loop is depth-cap flattened — attached as a
child of the depth-≤ 1 ancestor, and when its body is a single statement that
statement is folded into the loop label after `" → "` instead of becoming a
node. -/
def buildStmt : Stmt → Option Nat → List Exit → BState → BState × List Exit
  | .assignment ts e, pl, inc, s =>
      (pushNode s .operation (stmtLabel (.assignment ts e)) pl ts (collectTasks e) inc,
       [(s.nextId, none)])
  | .bareCall c, pl, inc, s =>
      (pushNode s .subroutine (render c) pl [] (collectTasks c) inc,
       [(s.nextId, none)])
  | .docString _, _, inc, s => (s, inc)
  | .ret v, _, inc, s => (pushRet s v inc, [])
  | .conditional t yes no, pl, inc, s =>
      let i := s.nextId
      let s1 := pushNode s .condition (render t) pl [] (collectTasks t) inc
      let ry := buildSeq yes pl [(i, some "Yes")] s1
      let rn := buildSeq no pl [(i, some "No")] ry.1
      if twinHeaders yes no then
        match ry.2, rn.2 with
        | [(l1, none)], [(l2, none)] => (mergeLoops rn.1 l1 l2, [(l1, none)])
        | _, _ => (rn.1, ry.2 ++ rn.2)
      else (rn.1, ry.2 ++ rn.2)
  | .countedLoop b it body, pl, inc, s =>
      match pl with
      | none =>
          let i := s.nextId
          let s1 := pushNode s .loop ("for " ++ b ++ " in " ++ render it) none
            [b] (collectTasks it) inc
          let rb := buildSeq body (some i) [] s1
          (rb.1, [(i, none)])
      | some p =>
          match body with
          | [b1] =>
              (pushNode s .loop
                ("for " ++ b ++ " in " ++ render it ++ " → " ++ stmtLabel b1)
                (some p) ([b] ++ stmtVars b1) (collectTasks it ++ stmtTasks b1) inc,
               [(s.nextId, none)])
          | _ =>
              let s1 := pushNode s .loop ("for " ++ b ++ " in " ++ render it)
                (some p) [b] (collectTasks it) inc
              let rb := buildSeq body (some p) [] s1
              (rb.1, [(s.nextId, none)])
  | .unconditionalLoop body, pl, inc, s =>
      match pl with
      | none =>
          let i := s.nextId
          let s1 := pushNode s .loop "while True" none [] [] inc
          let rb := buildSeq body (some i) [] s1
          (rb.1, [(i, none)])
      | some p =>
          match body with
          | [b1] =>
              (pushNode s .loop ("while True" ++ " → " ++ stmtLabel b1)
                (some p) (stmtVars b1) (stmtTasks b1) inc,
               [(s.nextId, none)])
          | _ =>
              let s1 := pushNode s .loop "while True" (some p) [] [] inc
              let rb := buildSeq body (some p) [] s1
              (rb.1, [(s.nextId, none)])

/-- Modelled from the spec: left-to-right lowering of a statement sequence.
Each statement is connected from the previous attachment points; a `Return`
terminates its containing sequence. -/
def buildSeq : List Stmt → Option Nat → List Exit → BState → BState × List Exit
  | [], _, inc, s => (s, inc)
  | .ret v :: _, _, inc, s => (pushRet s v inc, [])
  | st :: rest, pl, inc, s =>
      let r := buildStmt st pl inc s
      buildSeq rest pl r.2 r.1

end

/-- Modelled from the spec: the start node's label — `"input:"` when the
parameter list is empty, otherwise `"input: "` followed by the comma-space
joined parameter names. -/
def startLabel (params : List String) : String :=
  match params with
  | [] => "input:"
  | _ => "input: " ++ String.intercalate ", " params

/-- Modelled from the spec: the whole export — synthesize the start node, drop
leading docstring statements, and lower the body at top level from the start
node. -/
def exportGraph (params : List String) (body : List Stmt) : RFGraph :=
  let s0 : BState := ⟨[⟨0, .start, startLabel params, none, [], []⟩], [], 1, none⟩
  let r := buildSeq (body.dropWhile isDocString) none [(0, none)] s0
  ⟨r.1.nodes, r.1.edges⟩

mutual

/-- The value of the first `Return` the builder lowers inside one statement
(the return that materializes the end node), `none` when the statement lowers
no return.  `inLoop` mirrors the builder's containment context: a loop body is
walked with the flag set, and a single-statement loop body beneath a loop is
depth-cap collapsed into a label, so a return inside it is never lowered. -/
def firstReturnStmt : Stmt → Bool → Option (Option Expr)
  | .ret v, _ => some v
  | .conditional _ yes no, inLoop =>
      (firstReturnSeq yes inLoop).orElse (fun _ => firstReturnSeq no inLoop)
  | .countedLoop _ _ body, inLoop =>
      if inLoop && body.length == 1 then none else firstReturnSeq body true
  | .unconditionalLoop body, inLoop =>
      if inLoop && body.length == 1 then none else firstReturnSeq body true
  | _, _ => none

/-- The value of the first `Return` the builder lowers in a sequence. -/
def firstReturnSeq : List Stmt → Bool → Option (Option Expr)
  | [], _ => none
  | st :: rest, inLoop =>
      (firstReturnStmt st inLoop).orElse (fun _ => firstReturnSeq rest inLoop)

end

/-- A function body contains a reachable `Return` when lowering it at top
level materializes the end node. -/
def hasReachableReturn (body : List Stmt) : Bool :=
  (firstReturnSeq body false).isSome

/-- The single node a simple statement (assignment or bare call) lowers to. -/
def mkSimpleNode (i : Nat) (pl : Option Nat) (st : Stmt) : FlowNode :=
  ⟨i, stmtKind st, stmtLabel st, pl, stmtVars st, stmtTasks st⟩

/-- The run of nodes a list of simple statements lowers to, ids from `i`. -/
def simpleNodes (i : Nat) (pl : Option Nat) : List Stmt → List FlowNode
  | [] => []
  | st :: rest => mkSimpleNode i pl st :: simpleNodes (i + 1) pl rest

/-- The unlabeled chain edges joining a run of consecutively numbered nodes. -/
def chainEdges (i : Nat) : List Stmt → List FlowEdge
  | [] => []
  | [_] => []
  | _ :: st :: rest => ⟨i, i + 1, none⟩ :: chainEdges (i + 1) (st :: rest)

/-- A list of single-target assignment statements built from (target, value)
pairs. -/
def asgnStmts (l : List (String × Expr)) : List Stmt :=
  l.map (fun p => Stmt.assignment [p.1] p.2)

/-- Sample expressions mirroring the merge scenarios of the test suite. -/
def sampleTest : Expr := .binop ">" (.callE "len" [.identE "customer_ids"]) (.numLit "0")

/-- Sample `results.append(process_customer(customer_id))` expression. -/
def sampleAppend : Expr :=
  .methodCall (.identE "results") "append" [.callE "process_customer" [.identE "customer_id"]]

/-- Sample `notify_customer(customer_id)` expression. -/
def sampleNotify : Expr := .callE "notify_customer" [.identE "customer_id"]

/-- Builder-state well-formedness: node ids are below the allocator, are
pairwise distinct, every parent reference points to a parentless loop node in
the graph, start and end nodes are parentless, and the end-node count matches
the lazily tracked end id. -/
structure BInv (s : BState) : Prop where
  ids : ∀ n ∈ s.nodes, n.id < s.nextId
  nodup : (s.nodes.map FlowNode.id).Nodup
  parents : ∀ n ∈ s.nodes, ∀ p, n.parent = some p →
    ∃ m ∈ s.nodes, m.id = p ∧ m.parent = none ∧ m.kind = NodeKind.loop
  startsParent : ∀ n ∈ s.nodes, n.kind = NodeKind.start → n.parent = none
  endsCount : s.nodes.countP (fun n => n.kind == NodeKind.endNode) =
    (if s.endId.isSome then 1 else 0)
  endsId : ∀ i, s.endId = some i → i < s.nextId
  endsParent : ∀ n ∈ s.nodes, n.kind = NodeKind.endNode → n.parent = none

/-- The containment context is valid: when a parent loop id is set, it points
to a parentless loop node already in the graph. -/
def ctxOk (s : BState) (pl : Option Nat) : Prop :=
  ∀ p, pl = some p → p < s.nextId ∧
    ∃ m ∈ s.nodes, m.id = p ∧ m.parent = none ∧ m.kind = NodeKind.loop

/-- Frame facts relating a builder state to the state a lowering step turns it
into: the allocator is monotone, existing nodes and (id-bounded) edges
survive untouched, every node is old or fresh, no new start node appears, the
start count is stable, a materialized end id is stable, and a lowering that
first materializes the end node does so exactly when its statements lower a
reachable return, labeling the end node from that return's value. -/
structure BOut (s s' : BState) (fr : Option (Option Expr)) : Prop where
  mono : s.nextId ≤ s'.nextId
  old : ∀ n ∈ s.nodes, n ∈ s'.nodes
  newIds : ∀ n ∈ s'.nodes, n ∈ s.nodes ∨ s.nextId ≤ n.id
  oldEdge : ∀ e ∈ s.edges, e.source < s.nextId → e.target < s.nextId → e ∈ s'.edges
  newNoStart : ∀ n ∈ s'.nodes, n.kind = NodeKind.start → n ∈ s.nodes
  startCount : s'.nodes.countP (fun n => n.kind == NodeKind.start) =
    s.nodes.countP (fun n => n.kind == NodeKind.start)
  endSame : ∀ i, s.endId = some i → s'.endId = some i
  endNew : s.endId = none →
    match fr with
    | none => s'.endId = none
    | some v => ∃ j, s'.endId = some j ∧ ∃ n ∈ s'.nodes, n.id = j ∧
        n.kind = NodeKind.endNode ∧ n.label = outLabel v ∧ n.parent = none

/-- Parent-assignment discipline of a lowering step: in a loop context, every
fresh node is either parented to that loop or is the end node. -/
def PSome (s s' : BState) (pl : Option Nat) : Prop :=
  ∀ p, pl = some p → ∀ n ∈ s'.nodes, s.nextId ≤ n.id →
    n.parent = some p ∨ n.kind = NodeKind.endNode

/-- The initial builder state of one export: the start node alone. -/
def startState (params : List String) : BState :=
  ⟨[⟨0, NodeKind.start, startLabel params, none, [], []⟩], [], 1, none⟩

/-- A sample ternary-valued assignment statement. -/
def ternarySample : Stmt :=
  Stmt.assignment ["d"] (Expr.ternary (Expr.identE "a") (Expr.identE "b") (Expr.identE "c"))

theorem simpleNodes_append (i : Nat) (pl : Option Nat) (l1 l2 : List Stmt) :
    simpleNodes i pl (l1 ++ l2) = simpleNodes i pl l1 ++ simpleNodes (i + l1.length) pl l2 := by
  induction l1 generalizing i with
  | nil => simp [simpleNodes]
  | cons st rest ih =>
      have hc : (st :: rest) ++ l2 = st :: (rest ++ l2) := rfl
      rw [hc]
      simp only [simpleNodes, List.length_cons]
      rw [ih (i + 1)]
      have harith : i + 1 + rest.length = i + (rest.length + 1) := by omega
      rw [harith]
      simp

theorem buildStmt_simple (st : Stmt) (h : simpleStmt st = true)
    (pl : Option Nat) (inc : List Exit) (s : BState) :
    buildStmt st pl inc s =
      ({ nodes := s.nodes ++ [mkSimpleNode s.nextId pl st],
         edges := s.edges ++ inc.map (fun p => ⟨p.1, s.nextId, p.2⟩),
         nextId := s.nextId + 1, endId := s.endId },
       [(s.nextId, none)]) := by
  cases st <;> simp_all [simpleStmt, buildStmt, pushNode, mkSimpleNode, stmtKind,
    stmtLabel, stmtVars, stmtTasks]

theorem buildSeq_simple (l : List Stmt) (h : ∀ st ∈ l, simpleStmt st = true)
    (hne : l ≠ []) (pl : Option Nat) (inc : List Exit) (s : BState) :
    buildSeq l pl inc s =
      ({ nodes := s.nodes ++ simpleNodes s.nextId pl l,
         edges := (s.edges ++ inc.map (fun p => ⟨p.1, s.nextId, p.2⟩)) ++
           chainEdges s.nextId l,
         nextId := s.nextId + l.length, endId := s.endId },
       [(s.nextId + l.length - 1, none)]) := by
  induction l generalizing inc s with
  | nil => exact absurd rfl hne
  | cons st rest ih =>
      have hst : simpleStmt st = true := h st (List.mem_cons_self st rest)
      have hbs := buildStmt_simple st hst pl inc s
      cases rest with
      | nil =>
          cases st <;> simp_all [buildSeq, simpleStmt, simpleNodes, chainEdges,
            mkSimpleNode, buildStmt, pushNode, stmtKind, stmtLabel, stmtVars, stmtTasks]
      | cons st2 rest2 =>
          have hrest : ∀ x ∈ st2 :: rest2, simpleStmt x = true := by
            intro x hx; exact h x (List.mem_cons_of_mem st hx)
          have hb : buildSeq (st :: st2 :: rest2) pl inc s =
              buildSeq (st2 :: rest2) pl (buildStmt st pl inc s).2 (buildStmt st pl inc s).1 := by
            cases st <;> simp_all [buildSeq, simpleStmt]
          rw [hb, hbs]
          rw [ih hrest (by simp) [((s.nextId : Nat), (none : Option String))] _]
          simp only [simpleNodes, chainEdges, List.length_cons, Prod.mk.injEq,
            BState.mk.injEq, List.map_cons, List.map_nil, List.append_assoc,
            List.cons_append, List.nil_append, List.singleton_append, List.cons.injEq,
            and_true, true_and, eq_self_iff_true]
          omega

mutual

theorem collectTasks_eq_map : ∀ e, collectTasks e = (callSubexprs e).map taskOfCall
  | .identE _ => rfl
  | .strLit _ => rfl
  | .numLit _ => rfl
  | .boolLit _ => rfl
  | .callE f args => by
      simp [collectTasks, callSubexprs, taskOfCall, collectTasksList_eq_map args]
  | .methodCall r m args => by
      simp [collectTasks, callSubexprs, taskOfCall, collectTasks_eq_map r,
        collectTasksList_eq_map args]
  | .listLit es => by simp [collectTasks, callSubexprs, collectTasksList_eq_map es]
  | .binop op l r => by
      simp [collectTasks, callSubexprs, collectTasks_eq_map l, collectTasks_eq_map r]
  | .attrE r n => by simp [collectTasks, callSubexprs, collectTasks_eq_map r]
  | .subscriptE r i => by
      simp [collectTasks, callSubexprs, collectTasks_eq_map r, collectTasks_eq_map i]
  | .ternary b c o => by
      simp [collectTasks, callSubexprs, collectTasks_eq_map b, collectTasks_eq_map c,
        collectTasks_eq_map o]

theorem collectTasksList_eq_map :
    ∀ es, collectTasksList es = (callSubexprsList es).map taskOfCall
  | [] => rfl
  | e :: rest => by
      simp [collectTasksList, callSubexprsList, collectTasks_eq_map e,
        collectTasksList_eq_map rest]

end

theorem self_mem_callSubexprs {a : Expr} (h : isCallExpr a = true) :
    a ∈ callSubexprs a := by
  cases a <;> simp_all [isCallExpr, callSubexprs]

theorem mem_callSubexprsList {x a : Expr} :
    ∀ {args : List Expr}, a ∈ args → x ∈ callSubexprs a → x ∈ callSubexprsList args
  | [], h, _ => absurd h (List.not_mem_nil a)
  | e :: rest, h, hx => by
      rcases List.mem_cons.mp h with rfl | h2
      · simp only [callSubexprsList, List.mem_append]
        exact Or.inl hx
      · simp only [callSubexprsList, List.mem_append]
        exact Or.inr (mem_callSubexprsList h2 hx)

/-- C8: every call sub-expression in a statement's expression tree (outermost
calls, argument-position calls, method receivers, comparison operands) yields
exactly one TaskRef named by the bare callee or method name; a bare-identifier
argument is classified `variable` with the identifier as descriptor, a
string-literal argument is classified `string`, and a call argument is
recorded with the sentinel descriptor `"function_call"` and kind `call`
without being expanded, while that nested call still separately produces its
own TaskRef. -/
theorem claim_C8_task_collection :
    (∀ e, collectTasks e = (callSubexprs e).map taskOfCall)
    ∧ (∀ f args, taskOfCall (Expr.callE f args) = ⟨f, args.map classifyArg⟩)
    ∧ (∀ r m args, taskOfCall (Expr.methodCall r m args) = ⟨m, args.map classifyArg⟩)
    ∧ (∀ n, classifyArg (Expr.identE n) = ⟨n, ArgKind.var⟩)
    ∧ (∀ s, classifyArg (Expr.strLit s) = ⟨s, ArgKind.str⟩)
    ∧ (∀ a, isCallExpr a = true → classifyArg a = ⟨"function_call", ArgKind.call⟩)
    ∧ (∀ f args a, a ∈ args → isCallExpr a = true →
        taskOfCall a ∈ collectTasks (Expr.callE f args)) := by
  refine ⟨collectTasks_eq_map, fun _ _ => rfl, fun _ _ _ => rfl, fun _ => rfl,
    fun _ => rfl, ?_, ?_⟩
  · intro a ha
    cases a <;> simp_all [isCallExpr, classifyArg]
  · intro f args a hmem hcall
    have h1 : collectTasks (Expr.callE f args) =
        ⟨f, args.map classifyArg⟩ :: (callSubexprsList args).map taskOfCall := by
      simp [collectTasks, collectTasksList_eq_map]
    rw [h1]
    refine List.mem_cons_of_mem _ ?_
    exact List.mem_map_of_mem taskOfCall
      (mem_callSubexprsList hmem (self_mem_callSubexprs hcall))

theorem claim_C8_witness :
    ((Expr.callE "g" [Expr.identE "z"]) ∈ [Expr.callE "g" [Expr.identE "z"]]
      ∧ isCallExpr (Expr.callE "g" [Expr.identE "z"]) = true)
    ∧ taskOfCall (Expr.callE "g" [Expr.identE "z"])
        ∈ collectTasks (Expr.callE "f" [Expr.callE "g" [Expr.identE "z"]])
    ∧ classifyArg (Expr.callE "g" [Expr.identE "z"]) = ⟨"function_call", ArgKind.call⟩ :=
  ⟨⟨List.mem_singleton.mpr rfl, rfl⟩,
   claim_C8_task_collection.2.2.2.2.2.2 "f" [Expr.callE "g" [Expr.identE "z"]]
     (Expr.callE "g" [Expr.identE "z"]) (List.mem_singleton.mpr rfl) rfl,
   claim_C8_task_collection.2.2.2.2.2.1 (Expr.callE "g" [Expr.identE "z"]) rfl⟩

/-- C9: a leading bare-string (docstring) statement carries no node: the
export of a body starting with a docstring equals, node for node and edge for
edge, the export of the same body with the docstring removed. -/
theorem claim_C9_docstring_insensitivity (params : List String) (d : String)
    (body : List Stmt) :
    exportGraph params (Stmt.docString d :: body) = exportGraph params body := rfl

theorem asgnStmts_simple (l : List (String × Expr)) :
    ∀ st ∈ asgnStmts l, simpleStmt st = true := by
  intro st hst
  rcases List.mem_map.mp hst with ⟨p, _, rfl⟩
  rfl

theorem simpleNodes_asgn_kind (l : List (String × Expr)) :
    ∀ i pl, ∀ n ∈ simpleNodes i pl (asgnStmts l), n.kind = NodeKind.operation := by
  induction l with
  | nil => intro i pl n hn; simp [asgnStmts, simpleNodes] at hn
  | cons p rest ih =>
      intro i pl n hn
      simp only [asgnStmts, List.map_cons, simpleNodes, List.mem_cons] at hn
      rcases hn with rfl | hn
      · rfl
      · exact ih (i + 1) pl n hn

theorem chainEdges_label_none :
    ∀ (l : List Stmt) (i : Nat), ∀ e ∈ chainEdges i l, e.label = none := by
  intro l
  induction l with
  | nil => intro i e he; simp [chainEdges] at he
  | cons st rest ih =>
      intro i e he
      cases rest with
      | nil => simp [chainEdges] at he
      | cons st2 rest2 =>
          simp only [chainEdges, List.mem_cons] at he
          rcases he with rfl | he
          · rfl
          · exact ih (i + 1) e he

/-- C10: a conditional (ternary) expression appearing as an assignment value
produces no condition node and no Yes/No edges: the export of a chain of
assignments containing a ternary-valued assignment is exactly the start node
followed by one operation node per assignment, joined by unlabeled chain
edges, and the ternary is rendered inline in its single operation node's
label. -/
theorem claim_C10_ternary_inline (params : List String)
    (pre post : List (String × Expr)) (tg : String) (x c y : Expr) :
    exportGraph params
        (asgnStmts pre ++ Stmt.assignment [tg] (Expr.ternary x c y) :: asgnStmts post) =
      ⟨⟨0, NodeKind.start, startLabel params, none, [], []⟩ ::
         simpleNodes 1 none
           (asgnStmts pre ++ Stmt.assignment [tg] (Expr.ternary x c y) :: asgnStmts post),
       ⟨0, 1, none⟩ ::
         chainEdges 1
           (asgnStmts pre ++ Stmt.assignment [tg] (Expr.ternary x c y) :: asgnStmts post)⟩
    ∧ (∀ n ∈ (exportGraph params
          (asgnStmts pre ++ Stmt.assignment [tg] (Expr.ternary x c y) :: asgnStmts post)).nodes,
        n.kind ≠ NodeKind.condition)
    ∧ (∀ e ∈ (exportGraph params
          (asgnStmts pre ++ Stmt.assignment [tg] (Expr.ternary x c y) :: asgnStmts post)).edges,
        e.label = none)
    ∧ (∃ n ∈ (exportGraph params
          (asgnStmts pre ++ Stmt.assignment [tg] (Expr.ternary x c y) :: asgnStmts post)).nodes,
        n.kind = NodeKind.operation ∧
        n.label = tg ++ " = " ++
          (render x ++ " if " ++ render c ++ " else " ++ render y)) := by
  set mid := Stmt.assignment [tg] (Expr.ternary x c y) with hmid
  set body := asgnStmts pre ++ mid :: asgnStmts post with hbody
  have hsimple : ∀ st ∈ body, simpleStmt st = true := by
    intro st hst
    rcases List.mem_append.mp hst with h | h
    · exact asgnStmts_simple pre st h
    · rcases List.mem_cons.mp h with rfl | h
      · rfl
      · exact asgnStmts_simple post st h
  have hne : body ≠ [] := by
    rcases pre with _ | ⟨p, rest⟩ <;> simp [hbody, asgnStmts]
  have hdrop : body.dropWhile isDocString = body := by
    rcases pre with _ | ⟨p, rest⟩ <;> simp [hbody, asgnStmts, List.dropWhile, isDocString]
  have hexp : exportGraph params body =
      ⟨⟨0, NodeKind.start, startLabel params, none, [], []⟩ :: simpleNodes 1 none body,
       ⟨0, 1, none⟩ :: chainEdges 1 body⟩ := by
    have h2 := buildSeq_simple body hsimple hne none [(0, none)]
      ⟨[⟨0, NodeKind.start, startLabel params, none, [], []⟩], [], 1, none⟩
    simp only [exportGraph, hdrop]
    rw [h2]
    simp
  refine ⟨hexp, ?_, ?_, ?_⟩
  · intro n hn
    rw [hexp] at hn
    rcases List.mem_cons.mp hn with rfl | hn
    · simp
    · rw [hbody, simpleNodes_append] at hn
      rcases List.mem_append.mp hn with h | h
      · rw [simpleNodes_asgn_kind pre 1 none n h]
        simp
      · simp only [simpleNodes, List.mem_cons] at h
        rcases h with rfl | h
        · simp [mkSimpleNode, hmid, stmtKind]
        · rw [simpleNodes_asgn_kind post _ none n h]
          simp
  · intro e he
    rw [hexp] at he
    rcases List.mem_cons.mp he with rfl | he
    · rfl
    · exact chainEdges_label_none body 1 e he
  · refine ⟨mkSimpleNode (1 + (asgnStmts pre).length) none mid, ?_, rfl, ?_⟩
    · rw [hexp]
      refine List.mem_cons_of_mem _ ?_
      rw [hbody, simpleNodes_append]
      exact List.mem_append_right _ (List.mem_cons_self _ _)
    · rfl

/-- C2: twin-loop merge.  First part: a conditional whose yes branch is exactly
one loop and whose no branch is exactly one loop with the same rendered header
lowers to a single surviving loop node targeted by both the Yes and the No
edge from the condition; the no-branch loop's body statement whose
(kind, label) matches a child already under the surviving loop is deduplicated
to the reused child (here `e2`/`e3` have equal rendered labels, so the result
keeps exactly the yes-branch children and no node for `e3`).  Second part:
two sequential loops with identical rendered headers are never merged — they
remain two distinct loop nodes joined by an unlabeled edge from the first to
the second. -/
theorem claim_C2_twin_loop_merge :
    (∀ (params : List String) (t : Expr) (v v' : String) (it it' e1 e2 e3 : Expr),
      "for " ++ v ++ " in " ++ render it = "for " ++ v' ++ " in " ++ render it' →
      render e1 ≠ render e3 → render e2 = render e3 →
      exportGraph params
        [.conditional t [.countedLoop v it [.bareCall e1, .bareCall e2]]
                        [.countedLoop v' it' [.bareCall e3]]] =
        ⟨[⟨0, .start, startLabel params, none, [], []⟩,
          ⟨1, .condition, render t, none, [], collectTasks t⟩,
          ⟨2, .loop, "for " ++ v ++ " in " ++ render it, none, [v], collectTasks it⟩,
          ⟨3, .subroutine, render e1, some 2, [], collectTasks e1⟩,
          ⟨4, .subroutine, render e2, some 2, [], collectTasks e2⟩],
         [⟨0, 1, none⟩, ⟨1, 2, some "Yes"⟩, ⟨3, 4, none⟩, ⟨1, 2, some "No"⟩]⟩)
    ∧ (∀ (params : List String) (v v' : String) (it it' e1 e2 : Expr),
      "for " ++ v ++ " in " ++ render it = "for " ++ v' ++ " in " ++ render it' →
      exportGraph params
        [.countedLoop v it [.bareCall e1], .countedLoop v' it' [.bareCall e2]] =
        ⟨[⟨0, .start, startLabel params, none, [], []⟩,
          ⟨1, .loop, "for " ++ v ++ " in " ++ render it, none, [v], collectTasks it⟩,
          ⟨2, .subroutine, render e1, some 1, [], collectTasks e1⟩,
          ⟨3, .loop, "for " ++ v' ++ " in " ++ render it', none, [v'], collectTasks it'⟩,
          ⟨4, .subroutine, render e2, some 3, [], collectTasks e2⟩],
         [⟨0, 1, none⟩, ⟨1, 3, none⟩]⟩) := by
  constructor
  · intro params t v v' it it' e1 e2 e3 hh h13 h23
    simp only [exportGraph, List.dropWhile, isDocString, buildSeq, buildStmt, pushNode,
      twinHeaders, loopHeaderQ, hh, mergeLoops, mergeKeep, mergeFix, mergeRen,
      mergeDedup, List.find?, List.filter, List.map]
    simp [mergeLoops, mergeKeep, mergeFix, mergeRen, mergeDedup, List.find?,
      List.filter, h13, h23, hh]
  · intro params v v' it it' e1 e2 _
    simp [exportGraph, List.dropWhile, isDocString, buildSeq, buildStmt, pushNode]

theorem claim_C2_witness :
    (render sampleAppend ≠ render sampleNotify ∧ render sampleNotify = render sampleNotify)
    ∧ exportGraph []
        [.conditional sampleTest
          [.countedLoop "customer_id" (.identE "customer_ids")
            [.bareCall sampleAppend, .bareCall sampleNotify]]
          [.countedLoop "customer_id" (.identE "customer_ids") [.bareCall sampleNotify]]] =
        ⟨[⟨0, .start, startLabel [], none, [], []⟩,
          ⟨1, .condition, render sampleTest, none, [], collectTasks sampleTest⟩,
          ⟨2, .loop, "for " ++ "customer_id" ++ " in " ++ render (.identE "customer_ids"),
            none, ["customer_id"], collectTasks (.identE "customer_ids")⟩,
          ⟨3, .subroutine, render sampleAppend, some 2, [], collectTasks sampleAppend⟩,
          ⟨4, .subroutine, render sampleNotify, some 2, [], collectTasks sampleNotify⟩],
         [⟨0, 1, none⟩, ⟨1, 2, some "Yes"⟩, ⟨3, 4, none⟩, ⟨1, 2, some "No"⟩]⟩
    ∧ exportGraph []
        [.countedLoop "c" (.identE "ids") [.bareCall sampleAppend],
         .countedLoop "c" (.identE "ids") [.bareCall sampleNotify]] =
        ⟨[⟨0, .start, startLabel [], none, [], []⟩,
          ⟨1, .loop, "for " ++ "c" ++ " in " ++ render (.identE "ids"), none, ["c"],
            collectTasks (.identE "ids")⟩,
          ⟨2, .subroutine, render sampleAppend, some 1, [], collectTasks sampleAppend⟩,
          ⟨3, .loop, "for " ++ "c" ++ " in " ++ render (.identE "ids"), none, ["c"],
            collectTasks (.identE "ids")⟩,
          ⟨4, .subroutine, render sampleNotify, some 3, [], collectTasks sampleNotify⟩],
         [⟨0, 1, none⟩, ⟨1, 3, none⟩]⟩ :=
  ⟨⟨by decide, rfl⟩,
   claim_C2_twin_loop_merge.1 [] sampleTest "customer_id" "customer_id"
     (.identE "customer_ids") (.identE "customer_ids") sampleAppend sampleNotify
     sampleNotify rfl (by decide) rfl,
   claim_C2_twin_loop_merge.2 [] "c" "c" (.identE "ids") (.identE "ids")
     sampleAppend sampleNotify rfl⟩

/-- C3: depth-cap flattening.  First part: a loop nested directly beneath
another loop is attached as a child of the depth-≤ 1 ancestor loop, and since
its body is exactly one statement, no separate node is emitted for that
statement — the inner loop node's label is the loop header, `" → "`, and the
rendered body statement (the exported graph has exactly the start node, the
outer loop, and the collapsed inner loop).  Second part: the same holds for a
loop nested beneath a loop through an intervening conditional — the collapsed
inner loop node's parent is the ancestor loop's id, not its structural parent
(the condition). -/
theorem claim_C3_depth_cap_flattening :
    (∀ (params : List String) (a : String) (A : Expr) (b : String) (B e : Expr),
      exportGraph params [.countedLoop a A [.countedLoop b B [.bareCall e]]] =
        ⟨[⟨0, .start, startLabel params, none, [], []⟩,
          ⟨1, .loop, "for " ++ a ++ " in " ++ render A, none, [a], collectTasks A⟩,
          ⟨2, .loop, "for " ++ b ++ " in " ++ render B ++ " → " ++ render e, some 1,
            [b], collectTasks B ++ collectTasks e⟩],
         [⟨0, 1, none⟩]⟩)
    ∧ (∀ (params : List String) (a : String) (A t : Expr) (b : String) (B e : Expr),
      exportGraph params
        [.countedLoop a A [.conditional t [.countedLoop b B [.bareCall e]] []]] =
        ⟨[⟨0, .start, startLabel params, none, [], []⟩,
          ⟨1, .loop, "for " ++ a ++ " in " ++ render A, none, [a], collectTasks A⟩,
          ⟨2, .condition, render t, some 1, [], collectTasks t⟩,
          ⟨3, .loop, "for " ++ b ++ " in " ++ render B ++ " → " ++ render e, some 1,
            [b], collectTasks B ++ collectTasks e⟩],
         [⟨0, 1, none⟩, ⟨2, 3, some "Yes"⟩]⟩) := by
  constructor
  · intro params a A b B e
    simp [exportGraph, List.dropWhile, isDocString, buildSeq, buildStmt, pushNode,
      stmtLabel, stmtVars, stmtTasks]
  · intro params a A t b B e
    simp [exportGraph, List.dropWhile, isDocString, buildSeq, buildStmt, pushNode,
      twinHeaders, stmtLabel, stmtVars, stmtTasks]

theorem BOut.refl (s : BState) : BOut s s none where
  mono := le_refl _
  old := fun n hn => hn
  newIds := fun n hn => Or.inl hn
  oldEdge := fun e he _ _ => he
  newNoStart := fun n hn _ => hn
  startCount := rfl
  endSame := fun _ h => h
  endNew := fun h => h

theorem BOut.trans {s s' s'' : BState} {fr1 fr2 : Option (Option Expr)}
    (h1 : BOut s s' fr1) (h2 : BOut s' s'' fr2) :
    BOut s s'' (fr1.orElse fun _ => fr2) where
  mono := le_trans h1.mono h2.mono
  old := fun n hn => h2.old n (h1.old n hn)
  newIds := fun n hn => by
    rcases h2.newIds n hn with h | h
    · rcases h1.newIds n h with h' | h'
      · exact Or.inl h'
      · exact Or.inr h'
    · exact Or.inr (le_trans h1.mono h)
  oldEdge := fun e he hs ht =>
    h2.oldEdge e (h1.oldEdge e he hs ht) (lt_of_lt_of_le hs h1.mono)
      (lt_of_lt_of_le ht h1.mono)
  newNoStart := fun n hn hk => h1.newNoStart n (h2.newNoStart n hn hk) hk
  startCount := h2.startCount.trans h1.startCount
  endSame := fun i h => h2.endSame i (h1.endSame i h)
  endNew := fun h => by
    cases hf : fr1 with
    | some v =>
        have := h1.endNew h
        rw [hf] at this
        rcases this with ⟨j, hj, n, hn, hnid, hnk, hnl, hnp⟩
        simp only [Option.orElse, hf]
        exact ⟨j, h2.endSame j hj, n, h2.old n hn, hnid, hnk, hnl, hnp⟩
    | none =>
        have h1' := h1.endNew h
        rw [hf] at h1'
        have h2' := h2.endNew h1'
        simpa only [Option.orElse, hf] using h2'

theorem PSome_trans {s s' s'' : BState} {pl : Option Nat}
    (h1 : PSome s s' pl) (h2 : PSome s' s'' pl) (hb2 : BOut s' s'' fr2) :
    PSome s s'' pl := by
  intro p hp n hn hid
  rcases hb2.newIds n hn with h | h
  · exact h1 p hp n h hid
  · exact h2 p hp n hn h

theorem ctxOk_step {s s' : BState} {pl : Option Nat} {fr : Option (Option Expr)}
    (hc : ctxOk s pl) (hb : BOut s s' fr) : ctxOk s' pl := by
  intro p hp
  rcases hc p hp with ⟨hlt, m, hm, hmid, hmp, hmk⟩
  exact ⟨lt_of_lt_of_le hlt hb.mono, m, hb.old m hm, hmid, hmp, hmk⟩

theorem nodesInj {s : BState} (hs : BInv s) :
    ∀ a ∈ s.nodes, ∀ b ∈ s.nodes, a.id = b.id → a = b := by
  intro a ha b hb hab
  exact List.inj_on_of_nodup_map hs.nodup ha hb hab

theorem pushNode_inv {s : BState} {k : NodeKind} {lab : String} {par : Option Nat}
    {vs : List String} {ts : List TaskRef} {inc : List Exit}
    (hs : BInv s) (hk : k ≠ NodeKind.start) (hke : k ≠ NodeKind.endNode)
    (hpar : ∀ p, par = some p →
      ∃ m ∈ s.nodes, m.id = p ∧ m.parent = none ∧ m.kind = NodeKind.loop) :
    BInv (pushNode s k lab par vs ts inc) where
  ids := by
    intro n hn
    simp only [pushNode, List.mem_append, List.mem_singleton] at hn
    rcases hn with hn | rfl
    · exact lt_trans (hs.ids n hn) (Nat.lt_succ_self _)
    · exact Nat.lt_succ_self _
  nodup := by
    simp only [pushNode, List.map_append, List.map_cons, List.map_nil]
    rw [List.nodup_append]
    refine ⟨hs.nodup, List.nodup_singleton _, ?_⟩
    intro a ha hb
    simp only [List.mem_singleton] at hb
    rcases List.mem_map.mp ha with ⟨n, hn, rfl⟩
    exact absurd (hb ▸ hs.ids n hn) (lt_irrefl _)
  parents := by
    intro n hn p hp
    simp only [pushNode, List.mem_append, List.mem_singleton] at hn
    rcases hn with hn | rfl
    · rcases hs.parents n hn p hp with ⟨m, hm, hmid, hmp, hmk⟩
      exact ⟨m, by simp [pushNode, List.mem_append, hm], hmid, hmp, hmk⟩
    · rcases hpar p hp with ⟨m, hm, hmid, hmp, hmk⟩
      exact ⟨m, by simp [pushNode, List.mem_append, hm], hmid, hmp, hmk⟩
  startsParent := by
    intro n hn hnk
    simp only [pushNode, List.mem_append, List.mem_singleton] at hn
    rcases hn with hn | rfl
    · exact hs.startsParent n hn hnk
    · exact absurd hnk hk
  endsCount := by
    simp only [pushNode]
    rw [List.countP_append]
    have hkb : (k == NodeKind.endNode) = false := beq_eq_false_iff_ne.mpr hke
    have : List.countP (fun n => n.kind == NodeKind.endNode)
        [(⟨s.nextId, k, lab, par, vs, ts⟩ : FlowNode)] = 0 := by
      simp [List.countP, List.countP.go, hkb]
    rw [this, Nat.add_zero]
    exact hs.endsCount
  endsId := by
    intro i hi
    simp only [pushNode] at hi
    exact lt_trans (hs.endsId i hi) (Nat.lt_succ_self _)
  endsParent := by
    intro n hn hnk
    simp only [pushNode, List.mem_append, List.mem_singleton] at hn
    rcases hn with hn | rfl
    · exact hs.endsParent n hn hnk
    · exact absurd hnk hke

theorem pushNode_bout {s : BState} {k : NodeKind} {lab : String} {par : Option Nat}
    {vs : List String} {ts : List TaskRef} {inc : List Exit}
    (hk : k ≠ NodeKind.start) :
    BOut s (pushNode s k lab par vs ts inc) none where
  mono := Nat.le_succ _
  old := by
    intro n hn
    simp [pushNode, List.mem_append, hn]
  newIds := by
    intro n hn
    simp only [pushNode, List.mem_append, List.mem_singleton] at hn
    rcases hn with hn | rfl
    · exact Or.inl hn
    · exact Or.inr (le_refl _)
  oldEdge := by
    intro e he _ _
    simp [pushNode, List.mem_append, he]
  newNoStart := by
    intro n hn hnk
    simp only [pushNode, List.mem_append, List.mem_singleton] at hn
    rcases hn with hn | rfl
    · exact hn
    · exact absurd hnk hk
  startCount := by
    simp only [pushNode]
    rw [List.countP_append]
    have hkb : (k == NodeKind.start) = false := beq_eq_false_iff_ne.mpr hk
    have : List.countP (fun n => n.kind == NodeKind.start)
        [(⟨s.nextId, k, lab, par, vs, ts⟩ : FlowNode)] = 0 := by
      simp [List.countP, List.countP.go, hkb]
    rw [this, Nat.add_zero]
  endSame := fun _ h => h
  endNew := fun h => h

theorem pushNode_psome {s : BState} {k : NodeKind} {lab : String} {pl : Option Nat}
    {vs : List String} {ts : List TaskRef} {inc : List Exit}
    (hs : BInv s) :
    PSome s (pushNode s k lab pl vs ts inc) pl := by
  intro p hp n hn hid
  simp only [pushNode, List.mem_append, List.mem_singleton] at hn
  rcases hn with hn | rfl
  · exact absurd hid (not_le.mpr (hs.ids n hn))
  · exact Or.inl hp

theorem pushNode_psome_any {s : BState} {k : NodeKind} {lab : String}
    {par pl : Option Nat} {vs : List String} {ts : List TaskRef} {inc : List Exit}
    (hs : BInv s) (hpar : par = pl ∨ k = NodeKind.endNode) :
    PSome s (pushNode s k lab par vs ts inc) pl := by
  intro p hp n hn hid
  simp only [pushNode, List.mem_append, List.mem_singleton] at hn
  rcases hn with hn | rfl
  · exact absurd hid (not_le.mpr (hs.ids n hn))
  · rcases hpar with rfl | hke
    · exact Or.inl hp
    · exact Or.inr hke

theorem pushRet_inv {s : BState} {v : Option Expr} {inc : List Exit}
    (hs : BInv s) : BInv (pushRet s v inc) := by
  unfold pushRet
  cases hend : s.endId with
  | some j =>
      exact { ids := hs.ids, nodup := hs.nodup, parents := hs.parents,
              startsParent := hs.startsParent,
              endsCount := by simp only []; rw [hs.endsCount, hend],
              endsId := fun i hi => hs.endsId i (hend ▸ hi),
              endsParent := hs.endsParent }
  | none =>
      refine { ids := ?_, nodup := ?_, parents := ?_, startsParent := ?_,
               endsCount := ?_, endsId := ?_, endsParent := ?_ }
      · intro n hn
        simp only [List.mem_append, List.mem_singleton] at hn
        rcases hn with hn | rfl
        · exact lt_trans (hs.ids n hn) (Nat.lt_succ_self _)
        · exact Nat.lt_succ_self _
      · simp only [List.map_append, List.map_cons, List.map_nil]
        rw [List.nodup_append]
        refine ⟨hs.nodup, List.nodup_singleton _, ?_⟩
        intro a ha hb
        simp only [List.mem_singleton] at hb
        rcases List.mem_map.mp ha with ⟨n, hn, rfl⟩
        exact absurd (hb ▸ hs.ids n hn) (lt_irrefl _)
      · intro n hn p hp
        simp only [List.mem_append, List.mem_singleton] at hn
        rcases hn with hn | rfl
        · rcases hs.parents n hn p hp with ⟨m, hm, hmid, hmp, hmk⟩
          exact ⟨m, by simp [List.mem_append, hm], hmid, hmp, hmk⟩
        · simp at hp
      · intro n hn hnk
        simp only [List.mem_append, List.mem_singleton] at hn
        rcases hn with hn | rfl
        · exact hs.startsParent n hn hnk
        · simp at hnk
      · rw [List.countP_append, hs.endsCount, hend]
        simp [List.countP, List.countP.go]
      · intro i hi
        have hi' : (some s.nextId : Option Nat) = some i := hi
        have hieq : s.nextId = i := Option.some.inj hi'
        show i < s.nextId + 1
        omega
      · intro n hn hnk
        simp only [List.mem_append, List.mem_singleton] at hn
        rcases hn with hn | rfl
        · exact hs.endsParent n hn hnk
        · rfl

theorem pushRet_bout {s : BState} {v : Option Expr} {inc : List Exit} :
    BOut s (pushRet s v inc) (some v) := by
  unfold pushRet
  cases hend : s.endId with
  | some j =>
      refine { mono := le_refl _, old := fun n hn => hn,
               newIds := fun n hn => Or.inl hn,
               oldEdge := ?_, newNoStart := fun n hn _ => hn,
               startCount := rfl, endSame := ?_, endNew := ?_ }
      · intro e he _ _
        simp [List.mem_append, he]
      · intro i hi
        show some j = some i
        rw [← hend]
        exact hi
      · intro h
        rw [hend] at h
        exact absurd h (by simp)
  | none =>
      refine { mono := Nat.le_succ _, old := ?_, newIds := ?_,
               oldEdge := ?_, newNoStart := ?_, startCount := ?_,
               endSame := ?_, endNew := ?_ }
      · intro n hn
        simp [List.mem_append, hn]
      · intro n hn
        simp only [List.mem_append, List.mem_singleton] at hn
        rcases hn with hn | rfl
        · exact Or.inl hn
        · exact Or.inr (le_refl _)
      · intro e he _ _
        simp [List.mem_append, he]
      · intro n hn hnk
        simp only [List.mem_append, List.mem_singleton] at hn
        rcases hn with hn | rfl
        · exact hn
        · simp at hnk
      · rw [List.countP_append]
        have hb : (NodeKind.endNode == NodeKind.start) = false := rfl
        simp [List.countP, List.countP.go, hb]
      · intro i hi
        rw [hend] at hi
        exact absurd hi (by simp)
      · intro _
        refine ⟨s.nextId, rfl, ⟨s.nextId, NodeKind.endNode, outLabel v, none, [], []⟩,
          ?_, rfl, rfl, rfl, rfl⟩
        simp [List.mem_append]

theorem pushRet_psome {s : BState} {v : Option Expr} {inc : List Exit} {pl : Option Nat}
    (hs : BInv s) : PSome s (pushRet s v inc) pl := by
  unfold pushRet
  cases hend : s.endId with
  | some j =>
      intro p hp n hn hid
      exact absurd hid (not_le.mpr (hs.ids n hn))
  | none =>
      intro p hp n hn hid
      simp only [List.mem_append, List.mem_singleton] at hn
      rcases hn with hn | rfl
      · exact absurd hid (not_le.mpr (hs.ids n hn))
      · exact Or.inr rfl

theorem mergeFix_id (l1 l2 : Nat) (n : FlowNode) : (mergeFix l1 l2 n).id = n.id := by
  unfold mergeFix
  split <;> rfl

theorem mergeFix_kind (l1 l2 : Nat) (n : FlowNode) :
    (mergeFix l1 l2 n).kind = n.kind := by
  unfold mergeFix
  split <;> rfl

theorem mem_mergeLoops_nodes {s : BState} {l1 l2 : Nat} {n : FlowNode} :
    n ∈ (mergeLoops s l1 l2).nodes ↔
      ∃ n₀ ∈ s.nodes, mergeKeep s l1 l2 n₀ = true ∧ n = mergeFix l1 l2 n₀ := by
  simp only [mergeLoops, List.mem_map, List.mem_filter]
  constructor
  · rintro ⟨n₀, ⟨hn₀, hk⟩, rfl⟩
    exact ⟨n₀, hn₀, hk, rfl⟩
  · rintro ⟨n₀, hn₀, hk, rfl⟩
    exact ⟨n₀, ⟨hn₀, hk⟩, rfl⟩

theorem mergeKeep_of {s : BState} {l1 l2 : Nat} {n : FlowNode}
    (h1 : n.id ≠ l2) (h2 : n.parent ≠ some l2) : mergeKeep s l1 l2 n = true := by
  unfold mergeKeep
  exact decide_eq_true ⟨h1, fun hp => absurd hp h2⟩

theorem mergeFix_eq_self {l1 l2 : Nat} {n : FlowNode} (h : n.parent ≠ some l2) :
    mergeFix l1 l2 n = n := by
  unfold mergeFix
  rw [if_neg h]

theorem mergeRen_id_of_lt {s : BState} (l1 : Nat) {l2 BB i : Nat} (hB2 : BB ≤ l2)
    (hc : ∀ n ∈ s.nodes, n.parent = some l2 → BB ≤ n.id) (hi : i < BB) :
    mergeRen s l1 l2 i = i := by
  unfold mergeRen
  rw [if_neg (by omega)]
  cases hf : s.nodes.find? (fun m => decide (m.id = i)) with
  | none => rfl
  | some m =>
      have hm : m ∈ s.nodes := List.mem_of_find?_eq_some hf
      have hpm := List.find?_some hf
      have hmi : m.id = i := of_decide_eq_true hpm
      show (if m.parent = some l2 then
          (match mergeDedup s l1 m with | some m2 => m2.id | none => i)
        else i) = i
      rw [if_neg]
      intro hmp
      have := hc m hm hmp
      omega

theorem mergeLoops_edges {s : BState} {l1 l2 : Nat} (BB : Nat) (hB2 : BB ≤ l2)
    (hc : ∀ n ∈ s.nodes, n.parent = some l2 → BB ≤ n.id) :
    ∀ e ∈ s.edges, e.source < BB → e.target < BB → e ∈ (mergeLoops s l1 l2).edges := by
  intro e he hsrc htgt
  have h1 := mergeRen_id_of_lt l1 hB2 hc hsrc
  have h2 := mergeRen_id_of_lt l1 hB2 hc htgt
  simp only [mergeLoops, List.mem_map]
  exact ⟨e, he, by rw [h1, h2]⟩

theorem mergeLoops_main {s : BState} {l1 l2 : Nat} {pl : Option Nat} {L1 L2 : FlowNode}
    (hs : BInv s)
    (hL1 : L1 ∈ s.nodes) (hL1id : L1.id = l1) (hL1k : L1.kind = NodeKind.loop)
    (hL1p : L1.parent = pl)
    (hL2 : L2 ∈ s.nodes) (hL2id : L2.id = l2) (hL2k : L2.kind = NodeKind.loop)
    (hL2p : L2.parent = pl)
    (hne : l1 ≠ l2) :
    BInv (mergeLoops s l1 l2)
    ∧ (∀ n ∈ s.nodes, n.id ≠ l2 → n.parent ≠ some l2 → n ∈ (mergeLoops s l1 l2).nodes)
    ∧ (∀ n ∈ (mergeLoops s l1 l2).nodes, ∃ n₀ ∈ s.nodes, n = n₀ ∨
        (n₀.parent = some l2 ∧ n = { n₀ with parent := some l1 }))
    ∧ ((mergeLoops s l1 l2).nodes.countP (fun n => n.kind == NodeKind.start) =
        s.nodes.countP (fun n => n.kind == NodeKind.start))
    ∧ ((mergeLoops s l1 l2).nodes.countP (fun n => n.kind == NodeKind.endNode) =
        s.nodes.countP (fun n => n.kind == NodeKind.endNode))
    ∧ (∀ p, pl = some p → ∀ n ∈ s.nodes, n.parent ≠ some l2) := by
  -- a child of the discarded loop forces that loop (hence the context) parentless
  have hchildnone : ∀ n ∈ s.nodes, n.parent = some l2 → L2.parent = none := by
    intro n hn hp
    rcases hs.parents n hn l2 hp with ⟨m, hm, hmid, hmp, _⟩
    have : m = L2 := nodesInj hs m hm L2 hL2 (hmid.trans hL2id.symm)
    rw [← this]
    exact hmp
  have hplne : pl ≠ some l2 := by
    intro hpl
    have hL2c : L2.parent = some l2 := hL2p.trans hpl
    have := hchildnone L2 hL2 hL2c
    rw [this] at hL2c
    exact Option.noConfusion hL2c
  have hpsome : ∀ p, pl = some p → ∀ n ∈ s.nodes, n.parent ≠ some l2 := by
    intro p hp n hn hc
    have h0 := hchildnone n hn hc
    rw [hL2p, hp] at h0
    exact Option.noConfusion h0
  -- the surviving loop node persists unchanged
  have hL1ne2 : L1.parent ≠ some l2 := fun h => hplne (hL1p ▸ h)
  have hL1keep : L1 ∈ (mergeLoops s l1 l2).nodes := by
    rw [mem_mergeLoops_nodes]
    exact ⟨L1, hL1, mergeKeep_of (hL1id ▸ hne) hL1ne2,
      (mergeFix_eq_self hL1ne2).symm⟩
  -- characterization of survivors
  have hchar : ∀ n ∈ (mergeLoops s l1 l2).nodes, ∃ n₀ ∈ s.nodes,
      (n₀.parent ≠ some l2 ∧ n = n₀) ∨
      (n₀.parent = some l2 ∧ n = { n₀ with parent := some l1 }) := by
    intro n hn
    rcases mem_mergeLoops_nodes.mp hn with ⟨n₀, hn₀, hk, rfl⟩
    by_cases hp : n₀.parent = some l2
    · refine ⟨n₀, hn₀, Or.inr ⟨hp, ?_⟩⟩
      unfold mergeFix
      rw [if_pos hp]
    · exact ⟨n₀, hn₀, Or.inl ⟨hp, (mergeFix_eq_self hp)⟩⟩
  have hkeepmem : ∀ n ∈ s.nodes, n.id ≠ l2 → n.parent ≠ some l2 →
      n ∈ (mergeLoops s l1 l2).nodes := by
    intro n hn h1 h2
    rw [mem_mergeLoops_nodes]
    exact ⟨n, hn, mergeKeep_of h1 h2, (mergeFix_eq_self h2).symm⟩
  -- count preservation for a kind whose nodes all survive untouched
  have hcount : ∀ (k : NodeKind), k ≠ NodeKind.loop →
      (∀ n ∈ s.nodes, n.kind = k → n.parent = none) →
      (mergeLoops s l1 l2).nodes.countP (fun n => n.kind == k) =
        s.nodes.countP (fun n => n.kind == k) := by
    intro k hkl hkp
    have hmap : (mergeLoops s l1 l2).nodes.countP (fun n => n.kind == k) =
        (s.nodes.filter (mergeKeep s l1 l2)).countP (fun n => n.kind == k) := by
      simp only [mergeLoops]
      rw [List.countP_map]
      refine List.countP_congr ?_
      intro n _
      simp [Function.comp, mergeFix_kind]
    rw [hmap, List.countP_filter]
    refine List.countP_congr ?_
    intro n hn
    by_cases hnk : n.kind = k
    · have hp : n.parent = none := hkp n hn hnk
      have h1 : n.id ≠ l2 := by
        intro h
        have : n = L2 := nodesInj hs n hn L2 hL2 (h.trans hL2id.symm)
        rw [this] at hnk
        rw [hL2k] at hnk
        exact hkl hnk.symm
      have h2 : n.parent ≠ some l2 := by rw [hp]; exact fun h => Option.noConfusion h
      simp [hnk, mergeKeep_of h1 h2]
    · have : (n.kind == k) = false := beq_eq_false_iff_ne.mpr hnk
      simp [this]
  refine ⟨?_, hkeepmem, ?_, ?_, ?_, hpsome⟩
  · -- BInv
    refine { ids := ?_, nodup := ?_, parents := ?_, startsParent := ?_,
             endsCount := ?_, endsId := ?_, endsParent := ?_ }
    · intro n hn
      rcases hchar n hn with ⟨n₀, hn₀, h | h⟩
      · rw [h.2]
        exact hs.ids n₀ hn₀
      · rw [h.2]
        exact hs.ids n₀ hn₀
    · have hmapeq : (mergeLoops s l1 l2).nodes.map FlowNode.id =
          (s.nodes.filter (mergeKeep s l1 l2)).map FlowNode.id := by
        simp only [mergeLoops, List.map_map]
        refine List.map_congr_left ?_
        intro n _
        simp [Function.comp, mergeFix_id]
      rw [hmapeq]
      exact hs.nodup.sublist (List.Sublist.map _ (List.filter_sublist _))
    · intro n hn p hp
      rcases hchar n hn with ⟨n₀, hn₀, ⟨hne2, heq⟩ | ⟨hpar, heq⟩⟩
      · -- untouched node: its parent target survives untouched
        rw [heq] at hp
        rcases hs.parents n₀ hn₀ p hp with ⟨m, hm, hmid, hmp, hmk⟩
        have hpne : p ≠ l2 := by
          intro h
          exact hne2 (h ▸ hp)
        have hm2 : m.parent ≠ some l2 := by
          rw [hmp]; exact fun h => Option.noConfusion h
        exact ⟨m, hkeepmem m hm (hmid ▸ hpne) hm2, hmid, hmp, hmk⟩
      · -- re-attached child: the surviving loop is its parent, and is parentless
        have hLnone : L2.parent = none := hchildnone n₀ hn₀ hpar
        have hplnone : pl = none := by rw [← hL2p]; exact hLnone
        have hp'' : some l1 = some p := by rw [heq] at hp; exact hp
        have hp' : p = l1 := (Option.some.inj hp'').symm
        subst hp'
        exact ⟨L1, hL1keep, hL1id, hL1p.trans hplnone, hL1k⟩
    · intro n hn hnk
      rcases hchar n hn with ⟨n₀, hn₀, ⟨_, heq⟩ | ⟨hpar, heq⟩⟩
      · have hk0 : n₀.kind = NodeKind.start := by rw [heq] at hnk; exact hnk
        rw [heq]
        exact hs.startsParent n₀ hn₀ hk0
      · have hk0 : n₀.kind = NodeKind.start := by rw [heq] at hnk; exact hnk
        have := hs.startsParent n₀ hn₀ hk0
        rw [this] at hpar
        exact absurd hpar (fun h => Option.noConfusion h)
    · have := hcount NodeKind.endNode (fun h => NodeKind.noConfusion h) hs.endsParent
      rw [this]
      simp only [mergeLoops]
      exact hs.endsCount
    · intro i hi
      exact hs.endsId i hi
    · intro n hn hnk
      rcases hchar n hn with ⟨n₀, hn₀, ⟨_, heq⟩ | ⟨hpar, heq⟩⟩
      · have hk0 : n₀.kind = NodeKind.endNode := by rw [heq] at hnk; exact hnk
        rw [heq]
        exact hs.endsParent n₀ hn₀ hk0
      · have hk0 : n₀.kind = NodeKind.endNode := by rw [heq] at hnk; exact hnk
        have := hs.endsParent n₀ hn₀ hk0
        rw [this] at hpar
        exact absurd hpar (fun h => Option.noConfusion h)
  · intro n hn
    rcases hchar n hn with ⟨n₀, hn₀, ⟨_, heq⟩ | ⟨hpar, heq⟩⟩
    · exact ⟨n₀, hn₀, Or.inl heq⟩
    · exact ⟨n₀, hn₀, Or.inr ⟨hpar, heq⟩⟩
  · exact hcount NodeKind.start (fun h => NodeKind.noConfusion h) hs.startsParent
  · have := hcount NodeKind.endNode (fun h => NodeKind.noConfusion h) hs.endsParent
    exact this

theorem twinHeaders_true {yes no : List Stmt} (h : twinHeaders yes no = true) :
    ∃ y nn h1, yes = [y] ∧ no = [nn] ∧ loopHeaderQ y = some h1 ∧
      loopHeaderQ nn = some h1 := by
  cases yes with
  | nil => simp [twinHeaders] at h
  | cons y ys =>
      cases ys with
      | cons a b => simp [twinHeaders] at h
      | nil =>
          cases no with
          | nil => simp [twinHeaders] at h
          | cons nn ns =>
              cases ns with
              | cons a b => simp [twinHeaders] at h
              | nil =>
                  cases hy : loopHeaderQ y with
                  | none => simp [twinHeaders, hy] at h
                  | some h1 =>
                      cases hn : loopHeaderQ nn with
                      | none => simp [twinHeaders, hy, hn] at h
                      | some h2 =>
                          simp only [twinHeaders, hy, hn] at h
                          have : h1 = h2 := of_decide_eq_true h
                          exact ⟨y, nn, h1, rfl, rfl, hy, this ▸ hn⟩

mutual

theorem buildStmt_master :
    ∀ (st : Stmt) (pl : Option Nat) (inc : List Exit) (s : BState),
    BInv s → ctxOk s pl →
    BInv (buildStmt st pl inc s).1
    ∧ BOut s (buildStmt st pl inc s).1 (firstReturnStmt st pl.isSome)
    ∧ PSome s (buildStmt st pl inc s).1 pl
    ∧ (∀ h, loopHeaderQ st = some h →
        (buildStmt st pl inc s).2 = [(s.nextId, none)]
        ∧ ∃ n ∈ (buildStmt st pl inc s).1.nodes,
            n.id = s.nextId ∧ n.kind = NodeKind.loop ∧ n.parent = pl)
  | .assignment ts e, pl, inc, s, hs, hc => by
      refine ⟨pushNode_inv (k := .operation) hs (by decide)
          (by decide) (fun p hp => (hc p hp).2),
        pushNode_bout (k := .operation) (by decide),
        pushNode_psome (k := .operation) hs, ?_⟩
      intro h hh
      simp [loopHeaderQ] at hh
  | .bareCall c, pl, inc, s, hs, hc => by
      refine ⟨pushNode_inv (k := .subroutine) hs (by decide)
          (by decide) (fun p hp => (hc p hp).2),
        pushNode_bout (k := .subroutine) (by decide),
        pushNode_psome (k := .subroutine) hs, ?_⟩
      intro h hh
      simp [loopHeaderQ] at hh
  | .docString d, pl, inc, s, hs, hc => by
      refine ⟨hs, BOut.refl s, ?_, ?_⟩
      · intro p hp n hn hid
        exact absurd hid (not_le.mpr (hs.ids n hn))
      · intro h hh
        simp [loopHeaderQ] at hh
  | .ret v, pl, inc, s, hs, hc => by
      refine ⟨pushRet_inv hs, pushRet_bout, pushRet_psome hs, ?_⟩
      intro h hh
      simp [loopHeaderQ] at hh
  | .countedLoop b it body, pl, inc, s, hs, hc => by
      cases pl with
      | none =>
          have hstep : buildStmt (.countedLoop b it body) none inc s =
              ((buildSeq body (some s.nextId) []
                  (pushNode s .loop ("for " ++ b ++ " in " ++ render it) none
                    [b] (collectTasks it) inc)).1,
               [(s.nextId, none)]) := rfl
          rw [hstep]
          have hbout1 : BOut s (pushNode s .loop ("for " ++ b ++ " in " ++ render it)
              none [b] (collectTasks it) inc) none :=
            pushNode_bout (k := .loop) (by decide)
          have hinv1 : BInv (pushNode s .loop ("for " ++ b ++ " in " ++ render it)
              none [b] (collectTasks it) inc) :=
            pushNode_inv (k := .loop) hs (by decide)
              (by decide) (fun p hp => nomatch hp)
          have hc1 : ctxOk (pushNode s .loop ("for " ++ b ++ " in " ++ render it)
              none [b] (collectTasks it) inc) (some s.nextId) := by
            intro p hp
            have hp' : p = s.nextId := (Option.some.inj hp).symm
            subst hp'
            refine ⟨Nat.lt_succ_self _,
              ⟨s.nextId, .loop, "for " ++ b ++ " in " ++ render it, none, [b],
                collectTasks it⟩, ?_, rfl, rfl, rfl⟩
            simp [pushNode]
          obtain ⟨hinv2, hbout2, _, _⟩ :=
            buildSeq_master body (some s.nextId) [] _ hinv1 hc1
          refine ⟨hinv2, hbout1.trans hbout2, ?_, ?_⟩
          · intro p hp
            exact Option.noConfusion hp
          · intro h hh
            refine ⟨rfl, ⟨s.nextId, .loop, "for " ++ b ++ " in " ++ render it, none,
              [b], collectTasks it⟩, ?_, rfl, rfl, rfl⟩
            refine hbout2.old _ ?_
            simp [pushNode]
      | some p =>
          cases body with
          | nil =>
              have hstep : buildStmt (.countedLoop b it []) (some p) inc s =
                  ((buildSeq [] (some p) []
                      (pushNode s .loop ("for " ++ b ++ " in " ++ render it) (some p)
                        [b] (collectTasks it) inc)).1,
                   [(s.nextId, none)]) := rfl
              rw [hstep]
              have hbout1 : BOut s (pushNode s .loop ("for " ++ b ++ " in " ++ render it)
                  (some p) [b] (collectTasks it) inc) none :=
                pushNode_bout (k := .loop) (by decide)
              have hinv1 : BInv (pushNode s .loop ("for " ++ b ++ " in " ++ render it)
                  (some p) [b] (collectTasks it) inc) :=
                pushNode_inv hs (by decide) (by decide) (fun q hq => (hc q hq).2)
              refine ⟨hinv1, hbout1, pushNode_psome (k := .loop) hs, ?_⟩
              intro h hh
              refine ⟨rfl, ⟨s.nextId, .loop, "for " ++ b ++ " in " ++ render it, some p,
                [b], collectTasks it⟩, ?_, rfl, rfl, rfl⟩
              simp [buildSeq, pushNode]
          | cons b1 rest =>
              cases rest with
              | nil =>
                  have hinv1 : BInv (pushNode s .loop
                      ("for " ++ b ++ " in " ++ render it ++ " → " ++ stmtLabel b1)
                      (some p) ([b] ++ stmtVars b1) (collectTasks it ++ stmtTasks b1) inc) :=
                    pushNode_inv hs (by decide) (by decide) (fun q hq => (hc q hq).2)
                  refine ⟨hinv1, pushNode_bout (k := .loop) (by decide),
                    pushNode_psome (k := .loop) hs, ?_⟩
                  intro h hh
                  refine ⟨rfl, ⟨s.nextId, .loop,
                    "for " ++ b ++ " in " ++ render it ++ " → " ++ stmtLabel b1,
                    some p, [b] ++ stmtVars b1, collectTasks it ++ stmtTasks b1⟩,
                    ?_, rfl, rfl, rfl⟩
                  simp [buildStmt, pushNode]
              | cons b2 rest2 =>
                  have hstep : buildStmt (.countedLoop b it (b1 :: b2 :: rest2)) (some p) inc s =
                      ((buildSeq (b1 :: b2 :: rest2) (some p) []
                          (pushNode s .loop ("for " ++ b ++ " in " ++ render it) (some p)
                            [b] (collectTasks it) inc)).1,
                       [(s.nextId, none)]) := rfl
                  rw [hstep]
                  have hbout1 : BOut s (pushNode s .loop
                      ("for " ++ b ++ " in " ++ render it) (some p)
                      [b] (collectTasks it) inc) none :=
                    pushNode_bout (k := .loop) (by decide)
                  have hinv1 : BInv (pushNode s .loop ("for " ++ b ++ " in " ++ render it)
                      (some p) [b] (collectTasks it) inc) :=
                    pushNode_inv hs (by decide) (by decide) (fun q hq => (hc q hq).2)
                  have hc1 := ctxOk_step hc hbout1
                  obtain ⟨hinv2, hbout2, hps2, _⟩ :=
                    buildSeq_master (b1 :: b2 :: rest2) (some p) [] _ hinv1 hc1
                  refine ⟨hinv2, hbout1.trans hbout2, PSome_trans (pushNode_psome (k := .loop) hs) hps2 hbout2, ?_⟩
                  intro h hh
                  refine ⟨rfl, ⟨s.nextId, .loop, "for " ++ b ++ " in " ++ render it,
                    some p, [b], collectTasks it⟩, ?_, rfl, rfl, rfl⟩
                  refine hbout2.old _ ?_
                  simp [pushNode]
  | .unconditionalLoop body, pl, inc, s, hs, hc => by
      cases pl with
      | none =>
          have hstep : buildStmt (.unconditionalLoop body) none inc s =
              ((buildSeq body (some s.nextId) []
                  (pushNode s .loop "while True" none [] [] inc)).1,
               [(s.nextId, none)]) := rfl
          rw [hstep]
          have hbout1 : BOut s (pushNode s .loop "while True" none [] [] inc) none :=
            pushNode_bout (k := .loop) (by decide)
          have hinv1 : BInv (pushNode s .loop "while True" none [] [] inc) :=
            pushNode_inv (k := .loop) hs (by decide)
              (by decide) (fun p hp => nomatch hp)
          have hc1 : ctxOk (pushNode s .loop "while True" none [] [] inc)
              (some s.nextId) := by
            intro p hp
            have hp' : p = s.nextId := (Option.some.inj hp).symm
            subst hp'
            refine ⟨Nat.lt_succ_self _,
              ⟨s.nextId, .loop, "while True", none, [], []⟩, ?_, rfl, rfl, rfl⟩
            simp [pushNode]
          obtain ⟨hinv2, hbout2, _, _⟩ :=
            buildSeq_master body (some s.nextId) [] _ hinv1 hc1
          refine ⟨hinv2, hbout1.trans hbout2, ?_, ?_⟩
          · intro p hp
            exact Option.noConfusion hp
          · intro h hh
            refine ⟨rfl, ⟨s.nextId, .loop, "while True", none, [], []⟩, ?_, rfl, rfl, rfl⟩
            refine hbout2.old _ ?_
            simp [pushNode]
      | some p =>
          cases body with
          | nil =>
              have hstep : buildStmt (.unconditionalLoop []) (some p) inc s =
                  ((buildSeq [] (some p) []
                      (pushNode s .loop "while True" (some p) [] [] inc)).1,
                   [(s.nextId, none)]) := rfl
              rw [hstep]
              have hinv1 : BInv (pushNode s .loop "while True" (some p) [] [] inc) :=
                pushNode_inv hs (by decide) (by decide) (fun q hq => (hc q hq).2)
              refine ⟨hinv1, pushNode_bout (k := .loop) (by decide),
                pushNode_psome (k := .loop) hs, ?_⟩
              intro h hh
              refine ⟨rfl, ⟨s.nextId, .loop, "while True", some p, [], []⟩,
                ?_, rfl, rfl, rfl⟩
              simp [buildSeq, pushNode]
          | cons b1 rest =>
              cases rest with
              | nil =>
                  have hinv1 : BInv (pushNode s .loop ("while True" ++ " → " ++ stmtLabel b1)
                      (some p) (stmtVars b1) (stmtTasks b1) inc) :=
                    pushNode_inv hs (by decide) (by decide) (fun q hq => (hc q hq).2)
                  refine ⟨hinv1, pushNode_bout (k := .loop) (by decide),
                    pushNode_psome (k := .loop) hs, ?_⟩
                  intro h hh
                  refine ⟨rfl, ⟨s.nextId, .loop, "while True" ++ " → " ++ stmtLabel b1,
                    some p, stmtVars b1, stmtTasks b1⟩, ?_, rfl, rfl, rfl⟩
                  simp [buildStmt, pushNode]
              | cons b2 rest2 =>
                  have hstep : buildStmt (.unconditionalLoop (b1 :: b2 :: rest2)) (some p) inc s =
                      ((buildSeq (b1 :: b2 :: rest2) (some p) []
                          (pushNode s .loop "while True" (some p) [] [] inc)).1,
                       [(s.nextId, none)]) := rfl
                  rw [hstep]
                  have hbout1 : BOut s (pushNode s .loop "while True" (some p) [] [] inc)
                      none := pushNode_bout (k := .loop) (by decide)
                  have hinv1 : BInv (pushNode s .loop "while True" (some p) [] [] inc) :=
                    pushNode_inv hs (by decide) (by decide) (fun q hq => (hc q hq).2)
                  have hc1 := ctxOk_step hc hbout1
                  obtain ⟨hinv2, hbout2, hps2, _⟩ :=
                    buildSeq_master (b1 :: b2 :: rest2) (some p) [] _ hinv1 hc1
                  refine ⟨hinv2, hbout1.trans hbout2, PSome_trans (pushNode_psome (k := .loop) hs) hps2 hbout2, ?_⟩
                  intro h hh
                  refine ⟨rfl, ⟨s.nextId, .loop, "while True", some p, [], []⟩,
                    ?_, rfl, rfl, rfl⟩
                  refine hbout2.old _ ?_
                  simp [pushNode]
  | .conditional t yes no, pl, inc, s, hs, hc => by
      have hbout1 : BOut s (pushNode s .condition (render t) pl [] (collectTasks t) inc)
          none := pushNode_bout (k := .condition) (by decide)
      have hinv1 : BInv (pushNode s .condition (render t) pl [] (collectTasks t) inc) :=
        pushNode_inv hs (by decide) (by decide) (fun q hq => (hc q hq).2)
      have hc1 := ctxOk_step hc hbout1
      obtain ⟨hinvy, hbouty, hpsy, hexy⟩ :=
        buildSeq_master yes pl [(s.nextId, some "Yes")] _ hinv1 hc1
      have hcy := ctxOk_step hc1 hbouty
      obtain ⟨hinvn, hboutn, hpsn, hexn⟩ :=
        buildSeq_master no pl [(s.nextId, some "No")]
          (buildSeq yes pl [(s.nextId, some "Yes")]
            (pushNode s .condition (render t) pl [] (collectTasks t) inc)).1 hinvy hcy
      have hboutAll : BOut s
          (buildSeq no pl [(s.nextId, some "No")]
            (buildSeq yes pl [(s.nextId, some "Yes")]
              (pushNode s .condition (render t) pl [] (collectTasks t) inc)).1).1
          (firstReturnStmt (.conditional t yes no) pl.isSome) :=
        (hbout1.trans hbouty).trans hboutn
      have hpsAll : PSome s
          (buildSeq no pl [(s.nextId, some "No")]
            (buildSeq yes pl [(s.nextId, some "Yes")]
              (pushNode s .condition (render t) pl [] (collectTasks t) inc)).1).1 pl :=
        PSome_trans (PSome_trans (pushNode_psome (k := .condition) hs) hpsy hbouty) hpsn hboutn
      by_cases htw : twinHeaders yes no = true
      · obtain ⟨y, nn, h1, hyeq, hneq, hy1, hy2⟩ := twinHeaders_true htw
        subst hyeq
        subst hneq
        obtain ⟨hexA, NL1, hNL1mem, hNL1id, hNL1k, hNL1p⟩ := hexy y h1 rfl hy1
        obtain ⟨hexB, NL2, hNL2mem, hNL2id, hNL2k, hNL2p⟩ := hexn nn h1 rfl hy2
        have hNL1mem' := hboutn.old NL1 hNL1mem
        have hred : buildStmt (.conditional t [y] [nn]) pl inc s =
            (mergeLoops
              (buildSeq [nn] pl [(s.nextId, some "No")]
                (buildSeq [y] pl [(s.nextId, some "Yes")]
                  (pushNode s .condition (render t) pl [] (collectTasks t) inc)).1).1
              (pushNode s .condition (render t) pl [] (collectTasks t) inc).nextId
              (buildSeq [y] pl [(s.nextId, some "Yes")]
                (pushNode s .condition (render t) pl [] (collectTasks t) inc)).1.nextId,
             [((pushNode s .condition (render t) pl [] (collectTasks t) inc).nextId,
               none)]) := by
          show (let i := s.nextId
                let s1 := pushNode s .condition (render t) pl [] (collectTasks t) inc
                let ry := buildSeq [y] pl [(i, some "Yes")] s1
                let rn := buildSeq [nn] pl [(i, some "No")] ry.1
                if twinHeaders [y] [nn] then
                  match ry.2, rn.2 with
                  | [(l1, none)], [(l2, none)] => (mergeLoops rn.1 l1 l2, [(l1, none)])
                  | _, _ => (rn.1, ry.2 ++ rn.2)
                else (rn.1, ry.2 ++ rn.2)) = _
          simp only []
          rw [if_pos htw]
          rw [hexA, hexB]
        rw [hred]
        have hmono01 : s.nextId ≤ (pushNode s .condition (render t) pl [] (collectTasks t) inc).nextId :=
          hbout1.mono
        have hl1lt : (pushNode s .condition (render t) pl [] (collectTasks t) inc).nextId <
            (buildSeq [y] pl [(s.nextId, some "Yes")]
              (pushNode s .condition (render t) pl [] (collectTasks t) inc)).1.nextId := by
          have := hinvy.ids NL1 hNL1mem
          omega
        have hchild : ∀ nd ∈ (buildSeq [nn] pl [(s.nextId, some "No")]
            (buildSeq [y] pl [(s.nextId, some "Yes")]
              (pushNode s .condition (render t) pl [] (collectTasks t) inc)).1).1.nodes,
            nd.parent = some ((buildSeq [y] pl [(s.nextId, some "Yes")]
              (pushNode s .condition (render t) pl [] (collectTasks t) inc)).1.nextId) →
            (buildSeq [y] pl [(s.nextId, some "Yes")]
              (pushNode s .condition (render t) pl [] (collectTasks t) inc)).1.nextId ≤ nd.id := by
          intro nd hnd hp
          rcases hboutn.newIds nd hnd with hold | hnew
          · exfalso
            rcases hinvy.parents nd hold _ hp with ⟨m, hm, hmid, _, _⟩
            have := hinvy.ids m hm
            omega
          · exact hnew
        obtain ⟨hminv, hmkeep, hmchar, hmstart, hmend, hmps⟩ :=
          mergeLoops_main hinvn hNL1mem' hNL1id hNL1k hNL1p hNL2mem hNL2id hNL2k hNL2p
            (by omega)
        refine ⟨hminv, ?_, ?_, ?_⟩
        · -- BOut through the merge
          refine { mono := ?_, old := ?_, newIds := ?_, oldEdge := ?_,
                   newNoStart := ?_, startCount := ?_, endSame := ?_, endNew := ?_ }
          · exact hboutAll.mono
          · intro n hn
            refine hmkeep n (hboutAll.old n hn) ?_ ?_
            · have := hs.ids n hn
              omega
            · intro hpar
              rcases hs.parents n hn _ hpar with ⟨m, hm, hmid, _, _⟩
              have := hs.ids m hm
              omega
          · intro n hn
            rcases hmchar n hn with ⟨n₀, hn₀, heq | ⟨hpar, heq⟩⟩
            · rcases hboutAll.newIds n₀ hn₀ with hold | hnew
              · exact Or.inl (heq ▸ hold)
              · refine Or.inr ?_
                rw [heq]
                exact hnew
            · rcases hboutAll.newIds n₀ hn₀ with hold | hnew
              · exfalso
                rcases hs.parents n₀ hold _ hpar with ⟨m, hm, hmid, _, _⟩
                have := hs.ids m hm
                omega
              · refine Or.inr ?_
                rw [heq]
                exact hnew
          · intro e he hsrc htgt
            refine mergeLoops_edges s.nextId (by omega) ?_ e
              (hboutAll.oldEdge e he hsrc htgt) hsrc htgt
            intro nd hnd hp
            have := hchild nd hnd hp
            omega
          · intro n hn hk
            rcases hmchar n hn with ⟨n₀, hn₀, heq | ⟨hpar, heq⟩⟩
            · have hk0 : n₀.kind = NodeKind.start := by rw [heq] at hk; exact hk
              rw [heq]
              exact hboutAll.newNoStart n₀ hn₀ hk0
            · exfalso
              have hk0 : n₀.kind = NodeKind.start := by rw [heq] at hk; exact hk
              have := hinvn.startsParent n₀ hn₀ hk0
              rw [this] at hpar
              exact Option.noConfusion hpar
          · exact hmstart.trans hboutAll.startCount
          · intro i hi
            exact hboutAll.endSame i hi
          · intro hnone
            have h2 := hboutAll.endNew hnone
            cases hfr : firstReturnStmt (.conditional t [y] [nn]) pl.isSome with
            | none =>
                rw [hfr] at h2
                exact h2
            | some v =>
                rw [hfr] at h2
                rcases h2 with ⟨j, hj, nend, hnend, hnid, hnk, hnl, hnp⟩
                refine ⟨j, hj, nend, ?_, hnid, hnk, hnl, hnp⟩
                refine hmkeep nend hnend ?_ ?_
                · intro hideq
                  have : nend = NL2 := nodesInj hinvn nend hnend NL2 hNL2mem
                    (hideq.trans hNL2id.symm)
                  rw [this, hNL2k] at hnk
                  exact NodeKind.noConfusion hnk
                · rw [hnp]
                  exact fun hx => Option.noConfusion hx
        · -- PSome through the merge
          intro p hp n hn hid
          rcases hmchar n hn with ⟨n₀, hn₀, heq | ⟨hpar, heq⟩⟩
          · rw [heq] at hid ⊢
            exact hpsAll p hp n₀ hn₀ hid
          · exact absurd hpar (hmps p hp n₀ hn₀)
        · intro h hh
          simp [loopHeaderQ] at hh
      · have hred : buildStmt (.conditional t yes no) pl inc s =
            ((buildSeq no pl [(s.nextId, some "No")]
              (buildSeq yes pl [(s.nextId, some "Yes")]
                (pushNode s .condition (render t) pl [] (collectTasks t) inc)).1).1,
             (buildSeq yes pl [(s.nextId, some "Yes")]
                (pushNode s .condition (render t) pl [] (collectTasks t) inc)).2 ++
             (buildSeq no pl [(s.nextId, some "No")]
              (buildSeq yes pl [(s.nextId, some "Yes")]
                (pushNode s .condition (render t) pl [] (collectTasks t) inc)).1).2) := by
          show (let i := s.nextId
                let s1 := pushNode s .condition (render t) pl [] (collectTasks t) inc
                let ry := buildSeq yes pl [(i, some "Yes")] s1
                let rn := buildSeq no pl [(i, some "No")] ry.1
                if twinHeaders yes no then
                  match ry.2, rn.2 with
                  | [(l1, none)], [(l2, none)] => (mergeLoops rn.1 l1 l2, [(l1, none)])
                  | _, _ => (rn.1, ry.2 ++ rn.2)
                else (rn.1, ry.2 ++ rn.2)) = _
          simp only []
          rw [if_neg htw]
        rw [hred]
        refine ⟨hinvn, hboutAll, hpsAll, ?_⟩
        intro h hh
        simp [loopHeaderQ] at hh
termination_by st pl inc s hs hc => (sizeOf st, 0)

theorem buildSeq_master :
    ∀ (l : List Stmt) (pl : Option Nat) (inc : List Exit) (s : BState),
    BInv s → ctxOk s pl →
    BInv (buildSeq l pl inc s).1
    ∧ BOut s (buildSeq l pl inc s).1 (firstReturnSeq l pl.isSome)
    ∧ PSome s (buildSeq l pl inc s).1 pl
    ∧ (∀ y h, l = [y] → loopHeaderQ y = some h →
        (buildSeq l pl inc s).2 = [(s.nextId, none)]
        ∧ ∃ n ∈ (buildSeq l pl inc s).1.nodes,
            n.id = s.nextId ∧ n.kind = NodeKind.loop ∧ n.parent = pl)
  | [], pl, inc, s, hs, hc => by
      refine ⟨hs, BOut.refl s, ?_, ?_⟩
      · intro p hp n hn hid
        exact absurd hid (not_le.mpr (hs.ids n hn))
      · intro y h heq
        exact absurd heq (by simp)
  | st :: rest, pl, inc, s, hs, hc => by
      cases st with
      | ret v =>
          refine ⟨pushRet_inv hs, pushRet_bout, pushRet_psome hs, ?_⟩
          intro y h heq hh
          have hy : y = Stmt.ret v := by
            have := (List.cons.inj heq.symm).1
            exact this
          rw [hy] at hh
          simp [loopHeaderQ] at hh
      | assignment ts e =>
          exact buildSeq_master_step (.assignment ts e) (fun v hv => nomatch hv)
            rest pl inc s hs hc
      | bareCall c =>
          exact buildSeq_master_step (.bareCall c) (fun v hv => nomatch hv)
            rest pl inc s hs hc
      | conditional t ybody nbody =>
          exact buildSeq_master_step (.conditional t ybody nbody)
            (fun v hv => nomatch hv) rest pl inc s hs hc
      | countedLoop b it body =>
          exact buildSeq_master_step (.countedLoop b it body)
            (fun v hv => nomatch hv) rest pl inc s hs hc
      | unconditionalLoop body =>
          exact buildSeq_master_step (.unconditionalLoop body)
            (fun v hv => nomatch hv) rest pl inc s hs hc
      | docString d =>
          exact buildSeq_master_step (.docString d) (fun v hv => nomatch hv)
            rest pl inc s hs hc
termination_by l pl inc s hs hc => (sizeOf l, 1)

theorem buildSeq_master_step :
    ∀ (st : Stmt), (∀ v, st ≠ Stmt.ret v) →
    ∀ (rest : List Stmt) (pl : Option Nat) (inc : List Exit) (s : BState),
    BInv s → ctxOk s pl →
    BInv (buildSeq (st :: rest) pl inc s).1
    ∧ BOut s (buildSeq (st :: rest) pl inc s).1 (firstReturnSeq (st :: rest) pl.isSome)
    ∧ PSome s (buildSeq (st :: rest) pl inc s).1 pl
    ∧ (∀ y h, st :: rest = [y] → loopHeaderQ y = some h →
        (buildSeq (st :: rest) pl inc s).2 = [(s.nextId, none)]
        ∧ ∃ n ∈ (buildSeq (st :: rest) pl inc s).1.nodes,
            n.id = s.nextId ∧ n.kind = NodeKind.loop ∧ n.parent = pl) := by
  intro st hst rest pl inc s hs hc
  have hstep : buildSeq (st :: rest) pl inc s =
      buildSeq rest pl (buildStmt st pl inc s).2 (buildStmt st pl inc s).1 := by
    cases st with
    | ret v => exact absurd rfl (hst v)
    | assignment ts e => rfl
    | bareCall c => rfl
    | conditional t yb nb => rfl
    | countedLoop b it body => rfl
    | unconditionalLoop body => rfl
    | docString d => rfl
  obtain ⟨hinv1, hbout1, hps1, hex1⟩ := buildStmt_master st pl inc s hs hc
  have hc1 := ctxOk_step hc hbout1
  obtain ⟨hinv2, hbout2, hps2, _⟩ :=
    buildSeq_master rest pl (buildStmt st pl inc s).2 (buildStmt st pl inc s).1 hinv1 hc1
  rw [hstep]
  have hfr : firstReturnSeq (st :: rest) pl.isSome =
      (firstReturnStmt st pl.isSome).orElse (fun _ => firstReturnSeq rest pl.isSome) := rfl
  refine ⟨hinv2, ?_, PSome_trans hps1 hps2 hbout2, ?_⟩
  · rw [hfr]
    exact hbout1.trans hbout2
  · intro y h heq hh
    have hy : st = y := (List.cons.inj heq).1
    have hrest : rest = [] := (List.cons.inj heq).2
    subst hy
    subst hrest
    exact hex1 h hh
termination_by st hst rest => (1 + sizeOf st + sizeOf rest, 0)

end

theorem startState_inv (params : List String) : BInv (startState params) where
  ids := by
    intro n hn
    simp only [startState, List.mem_singleton] at hn
    rw [hn]
    exact Nat.zero_lt_one
  nodup := by simp [startState]
  parents := by
    intro n hn p hp
    simp only [startState, List.mem_singleton] at hn
    rw [hn] at hp
    exact nomatch hp
  startsParent := by
    intro n hn _
    simp only [startState, List.mem_singleton] at hn
    rw [hn]
  endsCount := by
    simp [startState, List.countP, List.countP.go,
      show (NodeKind.start == NodeKind.endNode) = false from rfl]
  endsId := by intro i hi; simp [startState] at hi
  endsParent := by
    intro n hn hk
    simp only [startState, List.mem_singleton] at hn
    rw [hn] at hk
    exact nomatch hk

theorem startState_ctx (params : List String) : ctxOk (startState params) none :=
  fun p hp => nomatch hp

theorem exportGraph_eq (params : List String) (body : List Stmt) :
    exportGraph params body =
      ⟨(buildSeq (body.dropWhile isDocString) none [(0, none)] (startState params)).1.nodes,
       (buildSeq (body.dropWhile isDocString) none [(0, none)] (startState params)).1.edges⟩ := rfl

theorem exportGraph_master (params : List String) (body : List Stmt) :
    BInv (buildSeq (body.dropWhile isDocString) none [(0, none)] (startState params)).1
    ∧ BOut (startState params)
        (buildSeq (body.dropWhile isDocString) none [(0, none)] (startState params)).1
        (firstReturnSeq (body.dropWhile isDocString) false) := by
  obtain ⟨h1, h2, _, _⟩ :=
    buildSeq_master (body.dropWhile isDocString) none [(0, none)] (startState params)
      (startState_inv params) (startState_ctx params)
  exact ⟨h1, h2⟩

theorem firstReturnSeq_dropWhile (body : List Stmt) (flag : Bool) :
    firstReturnSeq (body.dropWhile isDocString) flag = firstReturnSeq body flag := by
  induction body with
  | nil => rfl
  | cons st rest ih =>
      cases st with
      | docString d =>
          have h1 : (Stmt.docString d :: rest).dropWhile isDocString =
              rest.dropWhile isDocString := rfl
          have h2 : firstReturnSeq (Stmt.docString d :: rest) flag =
              firstReturnSeq rest flag := rfl
          rw [h1, h2, ih]
      | assignment ts e => rfl
      | bareCall c => rfl
      | conditional t y n => rfl
      | countedLoop b it bd => rfl
      | unconditionalLoop bd => rfl
      | ret v => rfl

/-- C1: depth invariant — in every exported graph, every node carrying a
parent reference points to a node that exists in the graph and itself has no
parent: absolute containment depth never exceeds one, for every input
function body. -/
theorem claim_C1_depth_invariant (params : List String) (body : List Stmt) :
    ∀ n ∈ (exportGraph params body).nodes, ∀ p, n.parent = some p →
      ∃ m ∈ (exportGraph params body).nodes, m.id = p ∧ m.parent = none := by
  intro n hn p hp
  rw [exportGraph_eq] at hn ⊢
  rcases (exportGraph_master params body).1.parents n hn p hp with ⟨m, hm, hmid, hmp, _⟩
  exact ⟨m, hm, hmid, hmp⟩

theorem claim_C1_witness :
    ((⟨2, NodeKind.subroutine, "f()", some 1, [], [⟨"f", []⟩]⟩ : FlowNode) ∈
        (exportGraph [] [.countedLoop "i" (.identE "xs")
          [.bareCall (.callE "f" [])]]).nodes
      ∧ (⟨2, NodeKind.subroutine, "f()", some 1, [], [⟨"f", []⟩]⟩ : FlowNode).parent = some 1)
    ∧ ∃ m ∈ (exportGraph [] [.countedLoop "i" (.identE "xs")
        [.bareCall (.callE "f" [])]]).nodes, m.id = 1 ∧ m.parent = none :=
  ⟨⟨by decide, by decide⟩,
   claim_C1_depth_invariant [] [.countedLoop "i" (.identE "xs")
     [.bareCall (.callE "f" [])]]
     ⟨2, NodeKind.subroutine, "f()", some 1, [], [⟨"f", []⟩]⟩ (by decide) 1 (by decide)⟩

theorem countP_one_unique {α : Type} {p : α → Bool} {l : List α}
    (h : l.countP p = 1) {a b : α} (ha : a ∈ l) (hb : b ∈ l)
    (hpa : p a = true) (hpb : p b = true) : a = b := by
  have hl : (l.filter p).length = 1 := by
    rw [← List.countP_eq_length_filter]
    exact h
  rcases List.length_eq_one.mp hl with ⟨x, hx⟩
  have ha' : a ∈ l.filter p := List.mem_filter.mpr ⟨ha, hpa⟩
  have hb' : b ∈ l.filter p := List.mem_filter.mpr ⟨hb, hpb⟩
  rw [hx] at ha' hb'
  rw [List.mem_singleton.mp ha', List.mem_singleton.mp hb']

/-- C7: start/end existence — every exported graph contains exactly one start
node; it contains an end node iff the builder lowers a reachable return from
the function body, and it never contains more than one end node. -/
theorem claim_C7_start_end_existence (params : List String) (body : List Stmt) :
    (exportGraph params body).nodes.countP (fun n => n.kind == NodeKind.start) = 1
    ∧ ((∃ n ∈ (exportGraph params body).nodes, n.kind = NodeKind.endNode) ↔
        hasReachableReturn body = true)
    ∧ (exportGraph params body).nodes.countP (fun n => n.kind == NodeKind.endNode) ≤ 1 := by
  obtain ⟨hinv, hbout⟩ := exportGraph_master params body
  have hfr := firstReturnSeq_dropWhile body false
  refine ⟨?_, ⟨?_, ?_⟩, ?_⟩
  · rw [exportGraph_eq]
    rw [hbout.startCount]
    simp [startState, List.countP, List.countP.go]
  · rintro ⟨n, hn, hk⟩
    rw [exportGraph_eq] at hn
    have hpos : 0 < (buildSeq (body.dropWhile isDocString) none [(0, none)]
        (startState params)).1.nodes.countP (fun n => n.kind == NodeKind.endNode) :=
      List.countP_pos.mpr ⟨n, hn, by simp [hk]⟩
    rw [hinv.endsCount] at hpos
    by_cases hsome : (buildSeq (body.dropWhile isDocString) none [(0, none)]
        (startState params)).1.endId.isSome
    · have hnew := hbout.endNew rfl
      unfold hasReachableReturn
      rw [← hfr]
      cases hcase : firstReturnSeq (body.dropWhile isDocString) false with
      | none =>
          rw [hcase] at hnew
          rw [hnew] at hsome
          simp at hsome
      | some v => simp
    · rw [if_neg hsome] at hpos
      omega
  · intro hr
    unfold hasReachableReturn at hr
    rw [← hfr] at hr
    rcases Option.isSome_iff_exists.mp hr with ⟨v, hv⟩
    have hnew := hbout.endNew rfl
    rw [hv] at hnew
    rcases hnew with ⟨j, _, n, hn, _, hk, _, _⟩
    rw [exportGraph_eq]
    exact ⟨n, hn, hk⟩
  · rw [exportGraph_eq]
    rw [hinv.endsCount]
    split <;> omega

/-- C6: start/end labels — in every exported graph the start node's label is
exactly `"input:"` when the function's parameter list is empty and otherwise
`"input: "` followed by the comma-space-joined parameter names, and every end
node's label is `"output:  "` (two spaces) followed by the rendered return
expression of the return that materialized it, with empty suffix when that
return carries no value. -/
theorem claim_C6_start_end_labels (params : List String) (body : List Stmt) :
    (∃ n ∈ (exportGraph params body).nodes, n.kind = NodeKind.start ∧
      n.label = (match params with
        | [] => "input:"
        | _ => "input: " ++ String.intercalate ", " params))
    ∧ (∀ n ∈ (exportGraph params body).nodes, n.kind = NodeKind.endNode →
        ∃ rv, firstReturnSeq body false = some rv ∧
          n.label = "output:  " ++ (match rv with | some e => render e | none => "")) := by
  obtain ⟨hinv, hbout⟩ := exportGraph_master params body
  constructor
  · refine ⟨⟨0, NodeKind.start, startLabel params, none, [], []⟩, ?_, rfl, rfl⟩
    rw [exportGraph_eq]
    refine hbout.old _ ?_
    simp [startState]
  · intro n hn hk
    rw [exportGraph_eq] at hn
    have hpos : 0 < (buildSeq (body.dropWhile isDocString) none [(0, none)]
        (startState params)).1.nodes.countP (fun n => n.kind == NodeKind.endNode) :=
      List.countP_pos.mpr ⟨n, hn, by simp [hk]⟩
    rw [hinv.endsCount] at hpos
    by_cases hsome : (buildSeq (body.dropWhile isDocString) none [(0, none)]
        (startState params)).1.endId.isSome
    · have hnew := hbout.endNew rfl
      cases hcase : firstReturnSeq (body.dropWhile isDocString) false with
      | none =>
          rw [hcase] at hnew
          rw [hnew] at hsome
          simp at hsome
      | some v =>
          rw [hcase] at hnew
          rcases hnew with ⟨j, hj, m, hm, hmid, hmk, hml, hmp⟩
          have hcount : (buildSeq (body.dropWhile isDocString) none [(0, none)]
              (startState params)).1.nodes.countP
                (fun n => n.kind == NodeKind.endNode) = 1 := by
            rw [hinv.endsCount, if_pos hsome]
          have : n = m := countP_one_unique hcount hn hm (by simp [hk]) (by simp [hmk])
          refine ⟨v, ?_, ?_⟩
          · rw [← firstReturnSeq_dropWhile body false]
            exact hcase
          · rw [this, hml]
            rfl
    · rw [if_neg hsome] at hpos
      omega

theorem simple_loopHeaderQ {st : Stmt} (h : simpleStmt st = true) :
    loopHeaderQ st = none := by
  cases st <;> simp_all [simpleStmt, loopHeaderQ]

theorem twinHeaders_simple {yes no : List Stmt}
    (h : ∀ st ∈ yes, simpleStmt st = true) : twinHeaders yes no = false := by
  cases yes with
  | nil => cases no <;> rfl
  | cons y ys =>
      cases ys with
      | cons a b => cases no <;> rfl
      | nil =>
          cases no with
          | nil => rfl
          | cons nn ns =>
              cases ns with
              | cons a b => rfl
              | nil =>
                  have hy := simple_loopHeaderQ (h y (List.mem_singleton.mpr rfl))
                  simp [twinHeaders, hy]

theorem simpleNodes_parent {pl : Option Nat} :
    ∀ (l : List Stmt) (i : Nat), ∀ n ∈ simpleNodes i pl l, n.parent = pl := by
  intro l
  induction l with
  | nil => intro i n hn; simp [simpleNodes] at hn
  | cons st rest ih =>
      intro i n hn
      simp only [simpleNodes, List.mem_cons] at hn
      rcases hn with rfl | hn
      · rfl
      · exact ih (i + 1) n hn

theorem buildSeq_simple_mem {l : List Stmt} (h : ∀ st ∈ l, simpleStmt st = true)
    (pl : Option Nat) (inc : List Exit) (s : BState) :
    ∀ n ∈ (buildSeq l pl inc s).1.nodes, n ∈ s.nodes ∨ n.parent = pl := by
  cases hl : l with
  | nil => intro n hn; exact Or.inl hn
  | cons st rest =>
      rw [← hl]
      rw [buildSeq_simple l (by rw [hl] at h ⊢; exact h) (by rw [hl]; simp) pl inc s]
      intro n hn
      simp only [List.mem_append] at hn
      rcases hn with hn | hn
      · exact Or.inl hn
      · exact Or.inr (simpleNodes_parent l s.nextId n hn)

/-- C4: conditions are never containers.  First part: in every exported
graph, every parent reference points to a loop node (never a condition node).
Second part: every statement lowered inside a branch of a top-level
conditional with simple-statement branches yields a parentless node.  Third
part: for a conditional (and everything else) lowered inside a loop, the
condition node and every node of its branch bodies carry the enclosing loop's
node id as parent, the same as the loop's direct children — concretely, in
the export of a single top-level loop every node other than the start node,
the loop node itself, and the end node has the loop's id (which is 1) as its
parent. -/
theorem claim_C4_conditions_never_containers :
    (∀ (params : List String) (body : List Stmt),
      ∀ n ∈ (exportGraph params body).nodes, ∀ p, n.parent = some p →
        ∀ m ∈ (exportGraph params body).nodes, m.id = p →
          m.kind = NodeKind.loop ∧ m.parent = none)
    ∧ (∀ (params : List String) (t : Expr) (yes no : List Stmt),
        (∀ st ∈ yes, simpleStmt st = true) → (∀ st ∈ no, simpleStmt st = true) →
        ∀ n ∈ (exportGraph params [.conditional t yes no]).nodes, n.parent = none)
    ∧ (∀ (params : List String) (v : String) (it : Expr) (bs : List Stmt),
        (∃ L ∈ (exportGraph params [.countedLoop v it bs]).nodes,
          L.id = 1 ∧ L.kind = NodeKind.loop ∧ L.parent = none)
        ∧ ∀ n ∈ (exportGraph params [.countedLoop v it bs]).nodes,
            n.id ≠ 0 → n.id ≠ 1 → n.kind ≠ NodeKind.endNode → n.parent = some 1) := by
  refine ⟨?_, ?_, ?_⟩
  · intro params body n hn p hp m hm hmid
    obtain ⟨hinv, _⟩ := exportGraph_master params body
    rw [exportGraph_eq] at hn hm
    rcases hinv.parents n hn p hp with ⟨m', hm', hmid', hmp', hmk'⟩
    have : m = m' := nodesInj hinv m hm m' hm' (hmid.trans hmid'.symm)
    rw [this]
    exact ⟨hmk', hmp'⟩
  · intro params t yes no hy hno n hn
    have htw : twinHeaders yes no = false := twinHeaders_simple hy
    have hred : buildStmt (Stmt.conditional t yes no) none [(0, none)] (startState params) =
        ((buildSeq no none [((startState params).nextId, some "No")]
            (buildSeq yes none [((startState params).nextId, some "Yes")]
              (pushNode (startState params) .condition (render t) none []
                (collectTasks t) [(0, none)])).1).1,
         (buildSeq yes none [((startState params).nextId, some "Yes")]
            (pushNode (startState params) .condition (render t) none []
              (collectTasks t) [(0, none)])).2 ++
         (buildSeq no none [((startState params).nextId, some "No")]
            (buildSeq yes none [((startState params).nextId, some "Yes")]
              (pushNode (startState params) .condition (render t) none []
                (collectTasks t) [(0, none)])).1).2) := by
      show (let i := (startState params).nextId
            let s1 := pushNode (startState params) .condition (render t) none []
              (collectTasks t) [(0, none)]
            let ry := buildSeq yes none [(i, some "Yes")] s1
            let rn := buildSeq no none [(i, some "No")] ry.1
            if twinHeaders yes no then
              match ry.2, rn.2 with
              | [(l1, none)], [(l2, none)] => (mergeLoops rn.1 l1 l2, [(l1, none)])
              | _, _ => (rn.1, ry.2 ++ rn.2)
            else (rn.1, ry.2 ++ rn.2)) = _
      simp only []
      rw [if_neg (by rw [htw]; exact Bool.false_ne_true)]
    have hn' : n ∈ (buildStmt (Stmt.conditional t yes no) none [(0, none)]
        (startState params)).1.nodes := hn
    rw [hred] at hn'
    rcases buildSeq_simple_mem hno none _ _ n hn' with hn2 | hp
    · rcases buildSeq_simple_mem hy none _ _ n hn2 with hn3 | hp
      · simp only [pushNode, startState, List.mem_append, List.mem_singleton,
          List.mem_cons, List.not_mem_nil, or_false] at hn3
        rcases hn3 with h | h <;> rw [h]
      · exact hp
    · exact hp
  · intro params v it bs
    have hred : buildSeq [Stmt.countedLoop v it bs] none [(0, none)] (startState params) =
        ((buildSeq bs (some 1) []
            (pushNode (startState params) .loop ("for " ++ v ++ " in " ++ render it)
              none [v] (collectTasks it) [(0, none)])).1,
         [(1, none)]) := rfl
    have hinv1 : BInv (pushNode (startState params) .loop
        ("for " ++ v ++ " in " ++ render it) none [v] (collectTasks it) [(0, none)]) :=
      pushNode_inv (k := .loop) (startState_inv params) (by decide) (by decide)
        (fun p hp => nomatch hp)
    have hc1 : ctxOk (pushNode (startState params) .loop
        ("for " ++ v ++ " in " ++ render it) none [v] (collectTasks it) [(0, none)])
        (some 1) := by
      intro p hp
      have hp' : p = 1 := (Option.some.inj hp).symm
      subst hp'
      refine ⟨Nat.one_lt_two,
        ⟨1, .loop, "for " ++ v ++ " in " ++ render it, none, [v], collectTasks it⟩,
        ?_, rfl, rfl, rfl⟩
      simp [pushNode, startState]
    obtain ⟨hinv2, hbout2, hps2, _⟩ := buildSeq_master bs (some 1) [] _ hinv1 hc1
    constructor
    · refine ⟨⟨1, .loop, "for " ++ v ++ " in " ++ render it, none, [v], collectTasks it⟩,
        ?_, rfl, rfl, rfl⟩
      show _ ∈ (buildSeq [Stmt.countedLoop v it bs] none [(0, none)]
        (startState params)).1.nodes
      rw [hred]
      refine hbout2.old _ ?_
      simp [pushNode, startState]
    · intro n hn h0 h1 hke
      have hn' : n ∈ (buildSeq [Stmt.countedLoop v it bs] none [(0, none)]
          (startState params)).1.nodes := hn
      rw [hred] at hn'
      rcases hbout2.newIds n hn' with hold | hnew
      · exfalso
        simp only [pushNode, startState, List.mem_append, List.mem_singleton,
          List.mem_cons, List.not_mem_nil, or_false] at hold
        rcases hold with h | h
        · rw [h] at h0
          exact h0 rfl
        · rw [h] at h1
          exact h1 rfl
      · have hnx : (pushNode (startState params) .loop
            ("for " ++ v ++ " in " ++ render it) none [v] (collectTasks it)
            [(0, none)]).nextId ≤ n.id := hnew
        rcases hps2 1 rfl n hn' hnx with hp | hk
        · exact hp
        · exact absurd hk hke

theorem twinHeaders_nil_right (yes : List Stmt) : twinHeaders yes [] = false := by
  cases yes with
  | nil => rfl
  | cons y ys => cases ys <;> rfl

/-- C5: empty-branch edge routing — for a conditional with an empty no-branch
(an `if` with no `else`), the `"No"`-labeled edge out of the condition node
targets the node lowered for the statement that follows the conditional in
its enclosing sequence. -/
theorem claim_C5_empty_branch_routing (params : List String) (t : Expr)
    (yes : List Stmt) (tg : String) (e : Expr) (rest : List Stmt) :
    ∃ cid aid,
      (⟨cid, aid, some "No"⟩ : FlowEdge) ∈
        (exportGraph params
          (Stmt.conditional t yes [] :: Stmt.assignment [tg] e :: rest)).edges
      ∧ (∃ n ∈ (exportGraph params
            (Stmt.conditional t yes [] :: Stmt.assignment [tg] e :: rest)).nodes,
          n.id = cid ∧ n.kind = NodeKind.condition ∧ n.label = render t)
      ∧ (∃ m ∈ (exportGraph params
            (Stmt.conditional t yes [] :: Stmt.assignment [tg] e :: rest)).nodes,
          m.id = aid ∧ m.kind = NodeKind.operation ∧
          m.label = tg ++ " = " ++ render e) := by
  have hinv1 : BInv (pushNode (startState params) .condition (render t) none []
      (collectTasks t) [(0, none)]) :=
    pushNode_inv (k := .condition) (startState_inv params) (by decide) (by decide)
      (fun p hp => nomatch hp)
  have hc1 : ctxOk (pushNode (startState params) .condition (render t) none []
      (collectTasks t) [(0, none)]) none := fun p hp => nomatch hp
  obtain ⟨hinvy, hbouty, _, _⟩ :=
    buildSeq_master yes none [(1, some "Yes")]
      (pushNode (startState params) .condition (render t) none []
        (collectTasks t) [(0, none)]) hinv1 hc1
  have hred : buildStmt (Stmt.conditional t yes []) none [(0, none)] (startState params) =
      ((buildSeq yes none [(1, some "Yes")]
          (pushNode (startState params) .condition (render t) none []
            (collectTasks t) [(0, none)])).1,
       (buildSeq yes none [(1, some "Yes")]
          (pushNode (startState params) .condition (render t) none []
            (collectTasks t) [(0, none)])).2 ++ ([((1 : Nat), some "No")] : List Exit)) := by
    show (let i := (startState params).nextId
          let s1 := pushNode (startState params) .condition (render t) none []
            (collectTasks t) [(0, none)]
          let ry := buildSeq yes none [(i, some "Yes")] s1
          let rn := buildSeq [] none [(i, some "No")] ry.1
          if twinHeaders yes [] then
            match ry.2, rn.2 with
            | [(l1, none)], [(l2, none)] => (mergeLoops rn.1 l1 l2, [(l1, none)])
            | _, _ => (rn.1, ry.2 ++ rn.2)
          else (rn.1, ry.2 ++ rn.2)) = _
    simp only []
    rw [if_neg (by rw [twinHeaders_nil_right yes]; exact Bool.false_ne_true)]
    rfl
  have hstep1 : buildSeq (Stmt.conditional t yes [] :: Stmt.assignment [tg] e :: rest)
      none [(0, none)] (startState params) =
      buildSeq (Stmt.assignment [tg] e :: rest) none
        (buildStmt (Stmt.conditional t yes []) none [(0, none)] (startState params)).2
        (buildStmt (Stmt.conditional t yes []) none [(0, none)] (startState params)).1 := rfl
  set ry1 := (buildSeq yes none [(1, some "Yes")]
    (pushNode (startState params) .condition (render t) none []
      (collectTasks t) [(0, none)])).1 with hry1
  set exy := (buildSeq yes none [(1, some "Yes")]
    (pushNode (startState params) .condition (render t) none []
      (collectTasks t) [(0, none)])).2 with hexy
  have hstep2 : buildSeq (Stmt.assignment [tg] e :: rest) none
      (exy ++ ([((1 : Nat), some "No")] : List Exit)) ry1 =
      buildSeq rest none
        (buildStmt (Stmt.assignment [tg] e) none (exy ++ ([((1 : Nat), some "No")] : List Exit)) ry1).2
        (buildStmt (Stmt.assignment [tg] e) none (exy ++ ([((1 : Nat), some "No")] : List Exit)) ry1).1 := rfl
  have hasg : buildStmt (Stmt.assignment [tg] e) none (exy ++ ([((1 : Nat), some "No")] : List Exit)) ry1 =
      (pushNode ry1 .operation (stmtLabel (Stmt.assignment [tg] e)) none [tg]
        (collectTasks e) (exy ++ ([((1 : Nat), some "No")] : List Exit)), [(ry1.nextId, none)]) := rfl
  have hinv2 : BInv (pushNode ry1 .operation (stmtLabel (Stmt.assignment [tg] e)) none
      [tg] (collectTasks e) (exy ++ ([((1 : Nat), some "No")] : List Exit))) :=
    pushNode_inv (k := .operation) hinvy (by decide) (by decide) (fun p hp => nomatch hp)
  have hc2 : ctxOk (pushNode ry1 .operation (stmtLabel (Stmt.assignment [tg] e)) none
      [tg] (collectTasks e) (exy ++ ([((1 : Nat), some "No")] : List Exit))) none := fun p hp => nomatch hp
  obtain ⟨_, hbout3, _, _⟩ :=
    buildSeq_master rest none [(ry1.nextId, none)]
      (pushNode ry1 .operation (stmtLabel (Stmt.assignment [tg] e)) none [tg]
        (collectTasks e) (exy ++ ([((1 : Nat), some "No")] : List Exit))) hinv2 hc2
  have hmono : 2 ≤ ry1.nextId := hbouty.mono
  refine ⟨1, ry1.nextId, ?_, ?_, ?_⟩
  · -- the "No" edge survives to the final graph
    rw [exportGraph_eq]
    have hdrop : (Stmt.conditional t yes [] :: Stmt.assignment [tg] e :: rest).dropWhile
        isDocString = Stmt.conditional t yes [] :: Stmt.assignment [tg] e :: rest := rfl
    rw [hdrop, hstep1, hred, hstep2, hasg]
    refine hbout3.oldEdge ⟨1, ry1.nextId, some "No"⟩ ?_ ?_ ?_
    · simp only [pushNode, List.mem_append]
      right
      simp
    · show 1 < ry1.nextId + 1
      omega
    · show ry1.nextId < ry1.nextId + 1
      omega
  · -- the condition node
    rw [exportGraph_eq]
    have hdrop : (Stmt.conditional t yes [] :: Stmt.assignment [tg] e :: rest).dropWhile
        isDocString = Stmt.conditional t yes [] :: Stmt.assignment [tg] e :: rest := rfl
    rw [hdrop, hstep1, hred, hstep2, hasg]
    refine ⟨⟨1, .condition, render t, none, [], collectTasks t⟩, ?_, rfl, rfl, rfl⟩
    refine hbout3.old _ ?_
    simp only [pushNode, List.mem_append]
    left
    refine hbouty.old _ ?_
    simp [pushNode, startState]
  · -- the following assignment's node
    rw [exportGraph_eq]
    have hdrop : (Stmt.conditional t yes [] :: Stmt.assignment [tg] e :: rest).dropWhile
        isDocString = Stmt.conditional t yes [] :: Stmt.assignment [tg] e :: rest := rfl
    rw [hdrop, hstep1, hred, hstep2, hasg]
    refine ⟨⟨ry1.nextId, .operation, stmtLabel (Stmt.assignment [tg] e), none, [tg],
      collectTasks e⟩, ?_, rfl, rfl, rfl⟩
    refine hbout3.old _ ?_
    simp [pushNode]

theorem claim_C4_witness :
    ((⟨1, NodeKind.loop, "for i in xs", none, ["i"], []⟩ : FlowNode) ∈
        (exportGraph [] [.countedLoop "i" (.identE "xs")
          [.bareCall (.callE "g" [])]]).nodes
      ∧ (⟨1, NodeKind.loop, "for i in xs", none, ["i"], []⟩ : FlowNode).kind =
          NodeKind.loop ∧
        (⟨1, NodeKind.loop, "for i in xs", none, ["i"], []⟩ : FlowNode).parent = none)
    ∧ ((⟨1, NodeKind.condition, "c", none, [], []⟩ : FlowNode) ∈
        (exportGraph [] [.conditional (.identE "c") [.bareCall (.callE "p" [])] []]).nodes
      ∧ (⟨1, NodeKind.condition, "c", none, [], []⟩ : FlowNode).parent = none)
    ∧ ((⟨2, NodeKind.condition, "c", some 1, [], []⟩ : FlowNode) ∈
        (exportGraph [] [.countedLoop "i" (.identE "xs")
          [.conditional (.identE "c") [.bareCall (.callE "p" [])] []]]).nodes
      ∧ (⟨2, NodeKind.condition, "c", some 1, [], []⟩ : FlowNode).parent = some 1) :=
  ⟨⟨by decide,
    (claim_C4_conditions_never_containers.1 [] [.countedLoop "i" (.identE "xs")
      [.bareCall (.callE "g" [])]]
      ⟨2, NodeKind.subroutine, "g()", some 1, [], [⟨"g", []⟩]⟩ (by decide) 1 (by decide)
      ⟨1, NodeKind.loop, "for i in xs", none, ["i"], []⟩ (by decide) (by decide)).1,
    (claim_C4_conditions_never_containers.1 [] [.countedLoop "i" (.identE "xs")
      [.bareCall (.callE "g" [])]]
      ⟨2, NodeKind.subroutine, "g()", some 1, [], [⟨"g", []⟩]⟩ (by decide) 1 (by decide)
      ⟨1, NodeKind.loop, "for i in xs", none, ["i"], []⟩ (by decide) (by decide)).2⟩,
   ⟨by decide,
    claim_C4_conditions_never_containers.2.1 [] (.identE "c")
      [.bareCall (.callE "p" [])] [] (by decide) (by decide)
      ⟨1, NodeKind.condition, "c", none, [], []⟩ (by decide)⟩,
   ⟨by decide,
    (claim_C4_conditions_never_containers.2.2 [] "i" (.identE "xs")
      [.conditional (.identE "c") [.bareCall (.callE "p" [])] []]).2
      ⟨2, NodeKind.condition, "c", some 1, [], []⟩ (by decide) (by decide) (by decide)
      (by decide)⟩⟩

theorem claim_C6_witness :
    ((⟨1, NodeKind.endNode, "output:  x", none, [], []⟩ : FlowNode) ∈
        (exportGraph ["a", "b"] [.ret (some (.identE "x"))]).nodes
      ∧ (⟨1, NodeKind.endNode, "output:  x", none, [], []⟩ : FlowNode).kind =
          NodeKind.endNode)
    ∧ (∃ n ∈ (exportGraph ["a", "b"] [.ret (some (.identE "x"))]).nodes,
        n.kind = NodeKind.start ∧
        n.label = (match ["a", "b"] with
          | [] => "input:"
          | _ => "input: " ++ String.intercalate ", " ["a", "b"]))
    ∧ (∃ rv, firstReturnSeq [.ret (some (.identE "x"))] false = some rv ∧
        (⟨1, NodeKind.endNode, "output:  x", none, [], []⟩ : FlowNode).label =
          "output:  " ++ (match rv with | some e => render e | none => "")) :=
  ⟨⟨by decide, rfl⟩,
   (claim_C6_start_end_labels ["a", "b"] [.ret (some (.identE "x"))]).1,
   (claim_C6_start_end_labels ["a", "b"] [.ret (some (.identE "x"))]).2
     ⟨1, NodeKind.endNode, "output:  x", none, [], []⟩ (by decide) rfl⟩

theorem claim_C7_witness :
    (hasReachableReturn [Stmt.ret none] = true
      ∧ ∃ n ∈ (exportGraph [] [Stmt.ret none]).nodes, n.kind = NodeKind.endNode)
    ∧ (exportGraph [] [Stmt.ret none]).nodes.countP
        (fun n => n.kind == NodeKind.start) = 1 :=
  ⟨⟨by decide, (claim_C7_start_end_existence [] [Stmt.ret none]).2.1.mpr (by decide)⟩,
   (claim_C7_start_end_existence [] [Stmt.ret none]).1⟩

theorem claim_C10_witness :
    mkSimpleNode 1 none ternarySample ∈
      (exportGraph [] (asgnStmts [] ++ ternarySample :: asgnStmts [])).nodes
    ∧ (mkSimpleNode 1 none ternarySample).kind ≠ NodeKind.condition :=
  ⟨by decide,
   (claim_C10_ternary_inline [] [] [] "d" (Expr.identE "a") (Expr.identE "b")
     (Expr.identE "c")).2.1 (mkSimpleNode 1 none ternarySample) (by decide)⟩
